import Mathlib

/-!
# treeForm.c : recursive-descent parser for propositional formulas

A shallow embedding of `src/treeForm.c`.

* The token list (`List` in C, a `NULL`-terminated linked list) is a Lean `List Token`;
  the cursor `*lp` is the list of the tokens that are still unread.
* Every grammar function `int f(List *lp, FormTree *t)` becomes a function
  `f : List Token → FormTree → Res`: it receives the values of `*lp` and `*t` at the call
  and returns the `int` result together with the values of `*lp` and `*t` at the return.
* `printTree` returns the text it writes to standard output.
-/

namespace TreeForm

/-- Modelled from the spec: the token of `scanner.h` (a `TokenType` tag together with the
`Token` union), which is not part of the sources. The spec describes a token as a tagged
value that is either a single symbol character or an identifier (a name string). -/
inductive Token where
  | symbol (c : Char)
  | identifier (name : String)
  deriving DecidableEq, Repr

/-- The `FormTree` of `treeForm.h`: a pointer that is `NULL` or points to a node that
stores the tag and payload (`tt`, `t`) and the two children `left` and `right`. -/
inductive FormTree where
  | null
  | node (tok : Token) (left right : FormTree)
  deriving DecidableEq, Repr

open Token FormTree

/-- The observable outcome of a grammar function: the returned `int` (as a `Bool`), the
cursor `*lp` and the output tree `*t` at the moment of return. The heap is not part of
the outcome, so `freeTree` (treeForm.c:42-49) leaves no trace in it. -/
structure Res where
  ok : Bool
  lp : List Token
  t : FormTree
  deriving DecidableEq, Repr

/-- `acceptCharacter` (treeForm.c:24-30): the returned flag and the new value of `*lp`. -/
def acceptCharacter (lp : List Token) (c : Char) : Bool × List Token :=
  match lp with
  | Token.symbol s :: next => if s = c then (true, next) else (false, lp)
  | _ => (false, lp)

/-- `newFormTreeNode` (treeForm.c:32-40); `tt` and `t` are the two halves of `tok`. -/
def newFormTreeNode (tok : Token) (tL tR : FormTree) : FormTree :=
  FormTree.node tok tL tR

/-- `treeIdentifier` (treeForm.c:51-58). -/
def treeIdentifier (lp : List Token) (t : FormTree) : Res :=
  match lp with
  | Token.identifier name :: next =>
      ⟨true, next, newFormTreeNode (Token.identifier name) FormTree.null FormTree.null⟩
  | _ => ⟨false, lp, t⟩

theorem acceptCharacter_length_le (lp : List Token) (c : Char) :
    (acceptCharacter lp c).2.length ≤ lp.length := by
  unfold acceptCharacter
  split
  · split <;> simp
  · simp

theorem acceptCharacter_length_lt (lp : List Token) (c : Char)
    (h : (acceptCharacter lp c).1 = true) :
    (acceptCharacter lp c).2.length < lp.length := by
  unfold acceptCharacter at h ⊢
  split at h
  · split at h
    · rename_i s next hs
      simp [hs]
    · simp at h
  · simp at h

theorem treeIdentifier_length_le (lp : List Token) (t : FormTree) :
    (treeIdentifier lp t).lp.length ≤ lp.length := by
  unfold treeIdentifier
  split <;> simp

/-! The six grammar functions call each other (`treeAtom` re-enters `treeBiconditional`
after `'('`), and two of them loop.  They are defined together by well-founded recursion on
the number of unread tokens; each one returns, next to its outcome, the fact that the
cursor did not move backwards, which is what the recursion needs.  The loop of
`treeConjunction` is `conjLoopW`, the loop of `treeDisjunction` is `disjLoopW`: one call
is one evaluation of the `while` condition followed by the loop body. -/

mutual

/-- `treeAtom` (treeForm.c:61-81). -/
def treeAtomW (lp : List Token) (t : FormTree) : {r : Res // r.lp.length ≤ lp.length} :=
  if (acceptCharacter lp 'T').1 then
    ⟨⟨true, (acceptCharacter lp 'T').2, newFormTreeNode (Token.symbol 'T') null null⟩,
      acceptCharacter_length_le lp 'T'⟩
  else if (acceptCharacter lp 'F').1 then
    ⟨⟨true, (acceptCharacter lp 'F').2, newFormTreeNode (Token.symbol 'F') null null⟩,
      acceptCharacter_length_le lp 'F'⟩
  else if (treeIdentifier lp t).ok then
    ⟨⟨true, (treeIdentifier lp t).lp, (treeIdentifier lp t).t⟩,
      treeIdentifier_length_le lp t⟩
  else if hP : (acceptCharacter lp '(').1 then
    -- `acceptCharacter(lp,'(') && treeBiconditional(lp,t) && acceptCharacter(lp,')')`:
    -- when a later conjunct fails, `*lp` and `*t` stay as the earlier ones left them
    match treeBiconditionalW (acceptCharacter lp '(').2 t with
    | ⟨r, hr⟩ =>
      if r.ok then
        if (acceptCharacter r.lp ')').1 then
          ⟨⟨true, (acceptCharacter r.lp ')').2, r.t⟩,
            by
              have h1 := acceptCharacter_length_le r.lp ')'
              have h2 := acceptCharacter_length_le lp '('
              simp only at h1 ⊢
              omega⟩
        else
          ⟨⟨false, r.lp, r.t⟩, by
              have h2 := acceptCharacter_length_le lp '('
              simp only
              omega⟩
      else
        ⟨⟨false, r.lp, r.t⟩, by
            have h2 := acceptCharacter_length_le lp '('
            simp only
            omega⟩
  else
    ⟨⟨false, lp, t⟩, Nat.le_refl _⟩
termination_by (lp.length, 1)
decreasing_by
  exact Prod.Lex.left _ _ (acceptCharacter_length_lt lp '(' hP)

/-- `treeLiteral` (treeForm.c:84-99). -/
def treeLiteralW (lp : List Token) (t : FormTree) : {r : Res // r.lp.length ≤ lp.length} :=
  match treeAtomW lp t with
  | ⟨r, hr⟩ =>
    if r.ok then
      ⟨⟨true, r.lp, r.t⟩, hr⟩
    else if hN : (acceptCharacter r.lp '~').1 then
      -- the cursor is where the failed `treeAtom` left it; `tL = NULL` is the output
      -- parameter of the second call and is freed when that call fails, `*t` is kept
      match treeAtomW (acceptCharacter r.lp '~').2 null with
      | ⟨r2, hr2⟩ =>
        if r2.ok then
          ⟨⟨true, r2.lp, newFormTreeNode (Token.symbol '~') r2.t null⟩, by
              have h1 := acceptCharacter_length_le r.lp '~'
              simp only at hr hr2 ⊢
              omega⟩
        else
          ⟨⟨false, r2.lp, r.t⟩, by
              have h1 := acceptCharacter_length_le r.lp '~'
              simp only at hr hr2 ⊢
              omega⟩
    else
      ⟨⟨false, r.lp, r.t⟩, hr⟩
termination_by (lp.length, 2)
decreasing_by
  · exact Prod.Lex.right _ (by decide)
  · have h1 := acceptCharacter_length_lt r.lp '~' hN
    exact Prod.Lex.left _ _ (by omega)

/-- The `while` loop of `treeConjunction` (treeForm.c:106-116), entered with cursor `lp`
and `*t = t`. -/
def conjLoopW (lp : List Token) (t : FormTree) : {r : Res // r.lp.length ≤ lp.length} :=
  if hA : (acceptCharacter lp '&').1 then
    -- `tL = *t`, `tR = NULL`; on failure `tR` is freed and `*t` still holds `tL`
    match treeLiteralW (acceptCharacter lp '&').2 null with
    | ⟨r, hr⟩ =>
      if r.ok then
        match conjLoopW r.lp (newFormTreeNode (Token.symbol '&') t r.t) with
        | ⟨r2, hr2⟩ =>
          ⟨r2, by
            have h1 := acceptCharacter_length_le lp '&'
            omega⟩
      else
        ⟨⟨false, r.lp, t⟩, by
            have h1 := acceptCharacter_length_le lp '&'
            simp only at hr ⊢
            omega⟩
  else
    ⟨⟨true, lp, t⟩, Nat.le_refl _⟩
termination_by (lp.length, 0)
decreasing_by
  · exact Prod.Lex.left _ _ (acceptCharacter_length_lt lp '&' hA)
  · have h1 := acceptCharacter_length_lt lp '&' hA
    exact Prod.Lex.left _ _ (by omega)

/-- `treeConjunction` (treeForm.c:102-118). -/
def treeConjunctionW (lp : List Token) (t : FormTree) :
    {r : Res // r.lp.length ≤ lp.length} :=
  match treeLiteralW lp t with
  | ⟨r, hr⟩ =>
    if r.ok then
      match conjLoopW r.lp r.t with
      | ⟨r2, hr2⟩ => ⟨r2, by omega⟩
    else
      ⟨⟨false, r.lp, r.t⟩, hr⟩
termination_by (lp.length, 3)
decreasing_by
  · exact Prod.Lex.right _ (by decide)
  · rcases Nat.lt_or_eq_of_le hr with h | h
    · exact Prod.Lex.left _ _ h
    · rw [h]
      exact Prod.Lex.right _ (by decide)

/-- The `while` loop of `treeDisjunction` (treeForm.c:124-134), entered with cursor `lp`
and `*t = t`. -/
def disjLoopW (lp : List Token) (t : FormTree) : {r : Res // r.lp.length ≤ lp.length} :=
  if hA : (acceptCharacter lp '|').1 then
    -- `tL = *t`, `tR = NULL`; on failure `tR` is freed and `*t` still holds `tL`
    match treeConjunctionW (acceptCharacter lp '|').2 null with
    | ⟨r, hr⟩ =>
      if r.ok then
        match disjLoopW r.lp (newFormTreeNode (Token.symbol '|') t r.t) with
        | ⟨r2, hr2⟩ =>
          ⟨r2, by
            have h1 := acceptCharacter_length_le lp '|'
            omega⟩
      else
        ⟨⟨false, r.lp, t⟩, by
            have h1 := acceptCharacter_length_le lp '|'
            simp only at hr ⊢
            omega⟩
  else
    ⟨⟨true, lp, t⟩, Nat.le_refl _⟩
termination_by (lp.length, 0)
decreasing_by
  · exact Prod.Lex.left _ _ (acceptCharacter_length_lt lp '|' hA)
  · have h1 := acceptCharacter_length_lt lp '|' hA
    exact Prod.Lex.left _ _ (by omega)

/-- `treeDisjunction` (treeForm.c:120-136). -/
def treeDisjunctionW (lp : List Token) (t : FormTree) :
    {r : Res // r.lp.length ≤ lp.length} :=
  match treeConjunctionW lp t with
  | ⟨r, hr⟩ =>
    if r.ok then
      match disjLoopW r.lp r.t with
      | ⟨r2, hr2⟩ => ⟨r2, by omega⟩
    else
      ⟨⟨false, r.lp, r.t⟩, hr⟩
termination_by (lp.length, 4)
decreasing_by
  · exact Prod.Lex.right _ (by decide)
  · rcases Nat.lt_or_eq_of_le hr with h | h
    · exact Prod.Lex.left _ _ h
    · rw [h]
      exact Prod.Lex.right _ (by decide)

/-- `treeImplication` (treeForm.c:138-156). -/
def treeImplicationW (lp : List Token) (t : FormTree) :
    {r : Res // r.lp.length ≤ lp.length} :=
  match treeDisjunctionW lp t with
  | ⟨r, hr⟩ =>
    if r.ok then
      if hM : (acceptCharacter r.lp '-').1 then
        if hG : (acceptCharacter (acceptCharacter r.lp '-').2 '>').1 then
          match treeDisjunctionW (acceptCharacter (acceptCharacter r.lp '-').2 '>').2 null with
          | ⟨r2, hr2⟩ =>
            if r2.ok then
              ⟨⟨true, r2.lp, newFormTreeNode (Token.symbol '-') r.t r2.t⟩, by
                have h1 := acceptCharacter_length_le r.lp '-'
                have h2 := acceptCharacter_length_le (acceptCharacter r.lp '-').2 '>'
                simp only at hr hr2 ⊢
                omega⟩
            else
              ⟨⟨false, r2.lp, r.t⟩, by
                have h1 := acceptCharacter_length_le r.lp '-'
                have h2 := acceptCharacter_length_le (acceptCharacter r.lp '-').2 '>'
                simp only at hr hr2 ⊢
                omega⟩
        else
          -- `-` accepted, `>` not found: both `if`s are left and `return 1` is reached
          ⟨⟨true, (acceptCharacter r.lp '-').2, r.t⟩, by
            have h1 := acceptCharacter_length_le r.lp '-'
            simp only at hr ⊢
            omega⟩
      else
        ⟨⟨true, r.lp, r.t⟩, hr⟩
    else
      ⟨⟨false, r.lp, r.t⟩, hr⟩
termination_by (lp.length, 5)
decreasing_by
  · exact Prod.Lex.right _ (by decide)
  · have h1 := acceptCharacter_length_lt r.lp '-' hM
    have h2 := acceptCharacter_length_le (acceptCharacter r.lp '-').2 '>'
    exact Prod.Lex.left _ _ (by omega)

/-- `treeBiconditional` (treeForm.c:158-178). -/
def treeBiconditionalW (lp : List Token) (t : FormTree) :
    {r : Res // r.lp.length ≤ lp.length} :=
  match treeImplicationW lp t with
  | ⟨r, hr⟩ =>
    if r.ok then
      if hL : (acceptCharacter r.lp '<').1 then
        if hM : (acceptCharacter (acceptCharacter r.lp '<').2 '-').1 then
          if hG : (acceptCharacter (acceptCharacter (acceptCharacter r.lp '<').2 '-').2 '>').1 then
            match treeImplicationW
              (acceptCharacter (acceptCharacter (acceptCharacter r.lp '<').2 '-').2 '>').2 null with
            | ⟨r2, hr2⟩ =>
              if r2.ok then
                ⟨⟨true, r2.lp, newFormTreeNode (Token.symbol '<') r.t r2.t⟩, by
                  have h1 := acceptCharacter_length_le r.lp '<'
                  have h2 := acceptCharacter_length_le (acceptCharacter r.lp '<').2 '-'
                  have h3 := acceptCharacter_length_le
                    (acceptCharacter (acceptCharacter r.lp '<').2 '-').2 '>'
                  simp only at hr hr2 ⊢
                  omega⟩
              else
                ⟨⟨false, r2.lp, r.t⟩, by
                  have h1 := acceptCharacter_length_le r.lp '<'
                  have h2 := acceptCharacter_length_le (acceptCharacter r.lp '<').2 '-'
                  have h3 := acceptCharacter_length_le
                    (acceptCharacter (acceptCharacter r.lp '<').2 '-').2 '>'
                  simp only at hr hr2 ⊢
                  omega⟩
          else
            -- `<` and `-` accepted, `>` not found: `return 1` is reached
            ⟨⟨true, (acceptCharacter (acceptCharacter r.lp '<').2 '-').2, r.t⟩, by
              have h1 := acceptCharacter_length_le r.lp '<'
              have h2 := acceptCharacter_length_le (acceptCharacter r.lp '<').2 '-'
              simp only at hr ⊢
              omega⟩
        else
          -- `<` accepted, `-` not found: `return 1` is reached
          ⟨⟨true, (acceptCharacter r.lp '<').2, r.t⟩, by
            have h1 := acceptCharacter_length_le r.lp '<'
            simp only at hr ⊢
            omega⟩
      else
        ⟨⟨true, r.lp, r.t⟩, hr⟩
    else
      ⟨⟨false, r.lp, r.t⟩, hr⟩
termination_by (lp.length, 6)
decreasing_by
  · exact Prod.Lex.right _ (by decide)
  · have h1 := acceptCharacter_length_lt r.lp '<' hL
    have h2 := acceptCharacter_length_le (acceptCharacter r.lp '<').2 '-'
    have h3 := acceptCharacter_length_le
      (acceptCharacter (acceptCharacter r.lp '<').2 '-').2 '>'
    exact Prod.Lex.left _ _ (by omega)

end

/-- `treeAtom` (treeForm.c:61-81): outcome of the call with `*lp = lp` and `*t = t`. -/
def treeAtom (lp : List Token) (t : FormTree) : Res := (treeAtomW lp t).1

/-- `treeLiteral` (treeForm.c:84-99). -/
def treeLiteral (lp : List Token) (t : FormTree) : Res := (treeLiteralW lp t).1

/-- The loop of `treeConjunction` (treeForm.c:106-116). -/
def conjLoop (lp : List Token) (t : FormTree) : Res := (conjLoopW lp t).1

/-- `treeConjunction` (treeForm.c:102-118). -/
def treeConjunction (lp : List Token) (t : FormTree) : Res := (treeConjunctionW lp t).1

/-- The loop of `treeDisjunction` (treeForm.c:124-134). -/
def disjLoop (lp : List Token) (t : FormTree) : Res := (disjLoopW lp t).1

/-- `treeDisjunction` (treeForm.c:120-136). -/
def treeDisjunction (lp : List Token) (t : FormTree) : Res := (treeDisjunctionW lp t).1

/-- `treeImplication` (treeForm.c:138-156). -/
def treeImplication (lp : List Token) (t : FormTree) : Res := (treeImplicationW lp t).1

/-- `treeBiconditional` (treeForm.c:158-178). -/
def treeBiconditional (lp : List Token) (t : FormTree) : Res := (treeBiconditionalW lp t).1

/-- `printTree` (treeForm.c:181-224): the text written to standard output, the `printf`
calls in the order the function makes them. -/
def printTree : FormTree → String
  | FormTree.null => ""
  | FormTree.node (Token.symbol c) left right =>
      if c = 'T' ∨ c = 'F' then String.singleton c
      else if c = '~' then "(~" ++ printTree left ++ ")"
      else if c = '-' then "(" ++ printTree left ++ " -> " ++ printTree right ++ ")"
      else if c = '<' then "(" ++ printTree left ++ " <-> " ++ printTree right ++ ")"
      else "(" ++ printTree left ++ (" " ++ String.singleton c ++ " ") ++ printTree right ++ ")"
  | FormTree.node (Token.identifier name) _ _ => name

/-- `complexityTree` (treeForm.c:231-247). The C `int` is a natural number here: a depth
that overflows 32 bits needs a tree of more than two thousand million nodes. -/
def complexityTree : FormTree → Nat
  | FormTree.null => 0
  | FormTree.node _ left right =>
      if complexityTree left > complexityTree right then complexityTree left + 1
      else complexityTree right + 1

/-- `freeTree` (treeForm.c:42-49): the number of nodes it releases, one call of `free`
for every node of the tree, the children first. -/
def freeTree : FormTree → Nat
  | FormTree.null => 0
  | FormTree.node _ left right => freeTree left + freeTree right + 1

/-! ## Definitions that follow the specification -/

/-- The terminal node for a token: both children absent. -/
def leaf (tok : Token) : FormTree := FormTree.node tok FormTree.null FormTree.null

/-- A terminal token: the constant `T`, the constant `F`, or an identifier. -/
def isTerminal : Token → Bool
  | Token.symbol c => c = 'T' || c = 'F'
  | Token.identifier _ => true

/-- The canonical rendering of a tree, in the words of the specification of the printer. -/
def canonicalRendering : FormTree → String
  | FormTree.null => ""
  | FormTree.node (Token.identifier name) _ _ => name
  | FormTree.node (Token.symbol c) left right =>
      if c = 'T' then "T"
      else if c = 'F' then "F"
      else if c = '~' then "(~" ++ canonicalRendering left ++ ")"
      else if c = '-' then
        "(" ++ canonicalRendering left ++ " -> " ++ canonicalRendering right ++ ")"
      else if c = '<' then
        "(" ++ canonicalRendering left ++ " <-> " ++ canonicalRendering right ++ ")"
      else
        "(" ++ canonicalRendering left ++ " " ++ String.singleton c ++ " "
          ++ canonicalRendering right ++ ")"

/-- A perfect binary tree with `d` levels: every node of the first `d - 1` levels has two
children and every node of level `d` has none. -/
def isPerfect : Nat → FormTree → Bool
  | 0, FormTree.null => true
  | d + 1, FormTree.node _ left right => isPerfect d left && isPerfect d right
  | _, _ => false

/-- The grammar levels of the specification. -/
inductive Level where
  | atom | literal | conjunction | disjunction | implication | biconditional
  deriving DecidableEq, Repr

/-- The grammar of the specification with the syntax tree of every derivation:
`Derives L w t` says that the token sequence `w` is derivable from the production of
level `L` and that `t` is the syntax tree of that derivation. The repetitions
`{ '&' literal }` and `{ '|' conjunction }` are unrolled from the left, which is the
left-associative fold.

    atom          ::= 'T' | 'F' | identifier | '(' biconditional ')'
    literal       ::= atom | '~' atom
    conjunction   ::= literal { '&' literal }
    disjunction   ::= conjunction { '|' conjunction }
    implication   ::= disjunction [ '-' '>' disjunction ]
    biconditional ::= implication [ '<' '-' '>' implication ]
-/
inductive Derives : Level → List Token → FormTree → Prop where
  | constT : Derives Level.atom [Token.symbol 'T'] (leaf (Token.symbol 'T'))
  | constF : Derives Level.atom [Token.symbol 'F'] (leaf (Token.symbol 'F'))
  | ident (name : String) :
      Derives Level.atom [Token.identifier name] (leaf (Token.identifier name))
  | paren {w : List Token} {t : FormTree} :
      Derives Level.biconditional w t →
      Derives Level.atom (Token.symbol '(' :: w ++ [Token.symbol ')']) t
  | litAtom {w : List Token} {t : FormTree} :
      Derives Level.atom w t → Derives Level.literal w t
  | litNeg {w : List Token} {t : FormTree} :
      Derives Level.atom w t →
      Derives Level.literal (Token.symbol '~' :: w)
        (FormTree.node (Token.symbol '~') t FormTree.null)
  | conjOne {w : List Token} {t : FormTree} :
      Derives Level.literal w t → Derives Level.conjunction w t
  | conjMore {w1 w2 : List Token} {t1 t2 : FormTree} :
      Derives Level.conjunction w1 t1 → Derives Level.literal w2 t2 →
      Derives Level.conjunction (w1 ++ Token.symbol '&' :: w2)
        (FormTree.node (Token.symbol '&') t1 t2)
  | disjOne {w : List Token} {t : FormTree} :
      Derives Level.conjunction w t → Derives Level.disjunction w t
  | disjMore {w1 w2 : List Token} {t1 t2 : FormTree} :
      Derives Level.disjunction w1 t1 → Derives Level.conjunction w2 t2 →
      Derives Level.disjunction (w1 ++ Token.symbol '|' :: w2)
        (FormTree.node (Token.symbol '|') t1 t2)
  | implOne {w : List Token} {t : FormTree} :
      Derives Level.disjunction w t → Derives Level.implication w t
  | implArrow {w1 w2 : List Token} {t1 t2 : FormTree} :
      Derives Level.disjunction w1 t1 → Derives Level.disjunction w2 t2 →
      Derives Level.implication (w1 ++ Token.symbol '-' :: Token.symbol '>' :: w2)
        (FormTree.node (Token.symbol '-') t1 t2)
  | bicOne {w : List Token} {t : FormTree} :
      Derives Level.implication w t → Derives Level.biconditional w t
  | bicArrow {w1 w2 : List Token} {t1 t2 : FormTree} :
      Derives Level.implication w1 t1 → Derives Level.implication w2 t2 →
      Derives Level.biconditional
        (w1 ++ Token.symbol '<' :: Token.symbol '-' :: Token.symbol '>' :: w2)
        (FormTree.node (Token.symbol '<') t1 t2)

/-- The tokens `op y1 op y2 ... op yk` that continue a chain of operands. -/
def opTail (op : Char) : List Token → List Token
  | [] => []
  | y :: ys => Token.symbol op :: y :: opTail op ys

/-- The tokens `x op y1 op ... op yk` of a chain of `k + 1` operands. -/
def joinWith (op : Char) (x : Token) (ys : List Token) : List Token :=
  x :: opTail op ys

/-- The left-nested tree of a chain of terminal operands: each `op` node has the last
operand as right child and the tree of all earlier operands as left child. -/
def foldLeft (op : Char) (x : Token) (ys : List Token) : FormTree :=
  ys.foldl (fun acc y => FormTree.node (Token.symbol op) acc (leaf y)) (leaf x)

/-- A token sequence on which no grammar function accepts a first token: it is empty or
begins with a symbol other than `T`, `F`, `(` and `~`. -/
def noStart : List Token → Bool
  | [] => true
  | Token.symbol c :: _ => c != 'T' && c != 'F' && c != '(' && c != '~'
  | Token.identifier _ :: _ => false

/-- A token that can end a formula of the grammar: a terminal or `)`. -/
def endsFormula (tok : Token) : Bool :=
  isTerminal tok || tok == Token.symbol ')'

/-- The ten characters of the textual grammar surface: `( ) ~ & | - > < T F`. -/
def isSymbolChar (c : Char) : Bool :=
  c == '(' || c == ')' || c == '~' || c == '&' || c == '|' || c == '-' || c == '>'
    || c == '<' || c == 'T' || c == 'F'

/-- Modelled from the spec: the scanner (`scanner.c`) is not part of the sources. A
character of an identifier: the spec makes an identifier an alphanumeric name and makes
the constants `T` and `F` symbol characters, so an identifier character is alphanumeric
and neither `T` nor `F`. -/
def isNameChar (c : Char) : Bool :=
  c.isAlphanum && c != 'T' && c != 'F'

/-- The identifier token for the characters collected so far, if there are any. -/
def flushName : List Char → List Token
  | [] => []
  | c :: cs => [Token.identifier (String.mk (c :: cs))]

/-- Modelled from the spec: the scanner (`scanner.c`) is not part of the sources. It
reads the text from left to right: a maximal run of identifier characters becomes an
Identifier token with that name, whitespace (space, tab, carriage return, line feed)
separates tokens and is dropped, and every other character becomes a Symbol token of its
own, the ten characters `( ) ~ & | - > < T F` among them. `acc` holds the characters of
the name that is being read. -/
def scanFrom : List Char → List Char → List Token
  | [], acc => flushName acc
  | c :: cs, acc =>
      if isNameChar c then scanFrom cs (acc ++ [c])
      else if c.isWhitespace then flushName acc ++ scanFrom cs []
      else flushName acc ++ Token.symbol c :: scanFrom cs []

/-- Modelled from the spec: the token sequence the scanner produces for a text. -/
def scanText (s : String) : List Token := scanFrom s.data []

/-- A name that the scanner produces as an identifier: it is not empty and consists of
identifier characters. -/
def nameOK (name : String) : Bool :=
  !name.data.isEmpty && name.data.all isNameChar

/-- Every identifier token of the sequence has a name that the scanner produces. -/
def tokensOK (s : List Token) : Bool :=
  s.all (fun tok =>
    match tok with
    | Token.identifier name => nameOK name
    | Token.symbol _ => true)

/-- A text that is empty or begins with a character that is not an identifier character:
an identifier cannot continue into it. -/
def boundary : List Char → Bool
  | [] => true
  | c :: _ => !isNameChar c

/-- The tokenisation of a text in the words of the round-trip property: each of the
characters `( ) ~ & | - > < T F` is a Symbol token, each identifier name is an Identifier
token, and spaces are dropped. -/
inductive Tokenises : List Char → List Token → Prop where
  | done : Tokenises [] []
  | space {cs : List Char} {ts : List Token} :
      Tokenises cs ts → Tokenises (' ' :: cs) ts
  | symbol {cs : List Char} {ts : List Token} (c : Char) : isSymbolChar c = true →
      Tokenises cs ts → Tokenises (c :: cs) (Token.symbol c :: ts)
  | identifier {cs : List Char} {ts : List Token} (name : String) :
      Tokenises cs ts → Tokenises (name.data ++ cs) (Token.identifier name :: ts)

/-- The token sequence of the text that `printTree` writes for a tree: one Symbol token
for each of the characters `( ) ~ & | - > < T F` it writes and one Identifier token for
each identifier name it writes. -/
def treeTokens : FormTree → List Token
  | FormTree.null => []
  | FormTree.node (Token.identifier name) _ _ => [Token.identifier name]
  | FormTree.node (Token.symbol c) left right =>
      if c = 'T' ∨ c = 'F' then [Token.symbol c]
      else if c = '~' then
        Token.symbol '(' :: Token.symbol '~' :: treeTokens left ++ [Token.symbol ')']
      else if c = '-' then
        Token.symbol '(' :: treeTokens left
          ++ Token.symbol '-' :: Token.symbol '>' :: treeTokens right ++ [Token.symbol ')']
      else if c = '<' then
        Token.symbol '(' :: treeTokens left
          ++ Token.symbol '<' :: Token.symbol '-' :: Token.symbol '>' :: treeTokens right
          ++ [Token.symbol ')']
      else
        Token.symbol '(' :: treeTokens left
          ++ Token.symbol c :: treeTokens right ++ [Token.symbol ')']

/-- The trees the parser builds from the tokens `toks`: a terminal (`T`, `F`, or an
identifier token of `toks`), a negation with a built left child and no right child, or a
binary node `&`, `|`, `-`, `<` with two built children. -/
inductive Built (toks : List Token) : FormTree → Prop where
  | constT : Built toks (leaf (Token.symbol 'T'))
  | constF : Built toks (leaf (Token.symbol 'F'))
  | ident (name : String) : Token.identifier name ∈ toks →
      Built toks (leaf (Token.identifier name))
  | neg {l : FormTree} : Built toks l →
      Built toks (FormTree.node (Token.symbol '~') l FormTree.null)
  | bin (c : Char) {l r : FormTree} : c = '&' ∨ c = '|' ∨ c = '-' ∨ c = '<' →
      Built toks l → Built toks r → Built toks (FormTree.node (Token.symbol c) l r)

/-- The states of the loop of `treeConjunction` after one or more operands: in a call
with `*lp = lp0` and `*t = t0`, `ConjReach lp0 t0 lp t` says that the loop condition is
evaluated with cursor `lp` and `*t = t`. -/
inductive ConjReach (lp0 : List Token) (t0 : FormTree) : List Token → FormTree → Prop where
  | first : (treeLiteral lp0 t0).ok = true →
      ConjReach lp0 t0 (treeLiteral lp0 t0).lp (treeLiteral lp0 t0).t
  | next {lp : List Token} {t : FormTree} : ConjReach lp0 t0 lp t →
      (acceptCharacter lp '&').1 = true →
      (treeLiteral (acceptCharacter lp '&').2 FormTree.null).ok = true →
      ConjReach lp0 t0 (treeLiteral (acceptCharacter lp '&').2 FormTree.null).lp
        (FormTree.node (Token.symbol '&') t
          (treeLiteral (acceptCharacter lp '&').2 FormTree.null).t)

/-- The states of the loop of `treeDisjunction` after one or more operands. -/
inductive DisjReach (lp0 : List Token) (t0 : FormTree) : List Token → FormTree → Prop where
  | first : (treeConjunction lp0 t0).ok = true →
      DisjReach lp0 t0 (treeConjunction lp0 t0).lp (treeConjunction lp0 t0).t
  | next {lp : List Token} {t : FormTree} : DisjReach lp0 t0 lp t →
      (acceptCharacter lp '|').1 = true →
      (treeConjunction (acceptCharacter lp '|').2 FormTree.null).ok = true →
      DisjReach lp0 t0 (treeConjunction (acceptCharacter lp '|').2 FormTree.null).lp
        (FormTree.node (Token.symbol '|') t
          (treeConjunction (acceptCharacter lp '|').2 FormTree.null).t)

/-- Whether a child is present (not `NULL`). -/
def isPresent : FormTree → Bool
  | FormTree.null => false
  | FormTree.node _ _ _ => true

/-- Every node of the tree has one of the three shapes of the specification, consistent
with what it stores: a terminal (`T`, `F` or an identifier, both children absent), a
unary node (`~`, left child present, right child absent) or a binary node (`&`, `|`, `-`
or `<`, both children present). -/
def shapeOK : FormTree → Bool
  | FormTree.null => true
  | FormTree.node (Token.identifier _) left right => !isPresent left && !isPresent right
  | FormTree.node (Token.symbol c) left right =>
      if c = 'T' ∨ c = 'F' then !isPresent left && !isPresent right
      else if c = '~' then isPresent left && !isPresent right && shapeOK left
      else if c = '&' ∨ c = '|' ∨ c = '-' ∨ c = '<' then
        isPresent left && isPresent right && shapeOK left && shapeOK right
      else false

/-- The number of nodes of a tree. -/
def nodeCount : FormTree → Nat
  | FormTree.null => 0
  | FormTree.node _ left right => nodeCount left + nodeCount right + 1

/-- The grammar function of a level. -/
def parseLevel : Level → List Token → FormTree → Res
  | Level.atom => treeAtom
  | Level.literal => treeLiteral
  | Level.conjunction => treeConjunction
  | Level.disjunction => treeDisjunction
  | Level.implication => treeImplication
  | Level.biconditional => treeBiconditional

/-- The recursive procedures of the parser: the six grammar functions and the two loops. -/
inductive Fn where
  | atom | literal | conjLoop | conjunction | disjLoop | disjunction | implication
  | biconditional
  deriving DecidableEq, Repr

/-- The order in which the procedures call each other on an unchanged cursor. -/
def Fn.rank : Fn → Nat
  | Fn.conjLoop => 0
  | Fn.disjLoop => 0
  | Fn.atom => 1
  | Fn.literal => 2
  | Fn.conjunction => 3
  | Fn.disjunction => 4
  | Fn.implication => 5
  | Fn.biconditional => 6

/-- The two loops take the tree built so far as their input. -/
def Fn.isLoop : Fn → Bool
  | Fn.conjLoop => true
  | Fn.disjLoop => true
  | _ => false

/-- The outcome of a procedure of the parser. -/
def run : Fn → List Token → FormTree → Res
  | Fn.atom => treeAtom
  | Fn.literal => treeLiteral
  | Fn.conjLoop => conjLoop
  | Fn.conjunction => treeConjunction
  | Fn.disjLoop => disjLoop
  | Fn.disjunction => treeDisjunction
  | Fn.implication => treeImplication
  | Fn.biconditional => treeBiconditional

/-- The outcome of a call together with its effect on the heap: the number of nodes
allocated by `newFormTreeNode` and the number of nodes released by `freeTree` during the
call. -/
structure Trace where
  res : Res
  allocated : Nat
  released : Nat
  deriving DecidableEq, Repr

/-- The procedures of treeForm.c run with a budget `n` for the depth of nested calls:
every call uses one unit and `none` is returned when the budget is used up, so a
recursion that did not end would return `none` for every budget. The calls of
`newFormTreeNode` and the nodes released by `freeTree` are counted. -/
def runFuel : Nat → Fn → List Token → FormTree → Option Trace
  | 0, _, _, _ => none
  | n + 1, Fn.atom, lp, t =>
      if (acceptCharacter lp 'T').1 then
        some ⟨⟨true, (acceptCharacter lp 'T').2,
          newFormTreeNode (Token.symbol 'T') FormTree.null FormTree.null⟩, 1, 0⟩
      else if (acceptCharacter lp 'F').1 then
        some ⟨⟨true, (acceptCharacter lp 'F').2,
          newFormTreeNode (Token.symbol 'F') FormTree.null FormTree.null⟩, 1, 0⟩
      else if (treeIdentifier lp t).ok then
        some ⟨⟨true, (treeIdentifier lp t).lp, (treeIdentifier lp t).t⟩, 1, 0⟩
      else if (acceptCharacter lp '(').1 then
        match runFuel n Fn.biconditional (acceptCharacter lp '(').2 t with
        | none => none
        | some b =>
          if b.res.ok then
            if (acceptCharacter b.res.lp ')').1 then
              some ⟨⟨true, (acceptCharacter b.res.lp ')').2, b.res.t⟩,
                b.allocated, b.released⟩
            else some ⟨⟨false, b.res.lp, b.res.t⟩, b.allocated, b.released⟩
          else some ⟨⟨false, b.res.lp, b.res.t⟩, b.allocated, b.released⟩
      else some ⟨⟨false, lp, t⟩, 0, 0⟩
  | n + 1, Fn.literal, lp, t =>
      match runFuel n Fn.atom lp t with
      | none => none
      | some a =>
        if a.res.ok then some ⟨⟨true, a.res.lp, a.res.t⟩, a.allocated, a.released⟩
        else if (acceptCharacter a.res.lp '~').1 then
          match runFuel n Fn.atom (acceptCharacter a.res.lp '~').2 FormTree.null with
          | none => none
          | some b =>
            if b.res.ok then
              some ⟨⟨true, b.res.lp,
                newFormTreeNode (Token.symbol '~') b.res.t FormTree.null⟩,
                a.allocated + b.allocated + 1, a.released + b.released⟩
            else
              -- `freeTree(tL)`
              some ⟨⟨false, b.res.lp, a.res.t⟩,
                a.allocated + b.allocated, a.released + b.released + freeTree b.res.t⟩
        else some ⟨⟨false, a.res.lp, a.res.t⟩, a.allocated, a.released⟩
  | n + 1, Fn.conjLoop, lp, t =>
      if (acceptCharacter lp '&').1 then
        match runFuel n Fn.literal (acceptCharacter lp '&').2 FormTree.null with
        | none => none
        | some b =>
          if b.res.ok then
            match runFuel n Fn.conjLoop b.res.lp
              (newFormTreeNode (Token.symbol '&') t b.res.t) with
            | none => none
            | some c =>
              some ⟨c.res, b.allocated + 1 + c.allocated, b.released + c.released⟩
          else
            -- `freeTree(tR); return 0;`
            some ⟨⟨false, b.res.lp, t⟩, b.allocated, b.released + freeTree b.res.t⟩
      else some ⟨⟨true, lp, t⟩, 0, 0⟩
  | n + 1, Fn.conjunction, lp, t =>
      match runFuel n Fn.literal lp t with
      | none => none
      | some a =>
        if a.res.ok then
          match runFuel n Fn.conjLoop a.res.lp a.res.t with
          | none => none
          | some c => some ⟨c.res, a.allocated + c.allocated, a.released + c.released⟩
        else some ⟨⟨false, a.res.lp, a.res.t⟩, a.allocated, a.released⟩
  | n + 1, Fn.disjLoop, lp, t =>
      if (acceptCharacter lp '|').1 then
        match runFuel n Fn.conjunction (acceptCharacter lp '|').2 FormTree.null with
        | none => none
        | some b =>
          if b.res.ok then
            match runFuel n Fn.disjLoop b.res.lp
              (newFormTreeNode (Token.symbol '|') t b.res.t) with
            | none => none
            | some c =>
              some ⟨c.res, b.allocated + 1 + c.allocated, b.released + c.released⟩
          else
            -- `freeTree(tR); return 0;`
            some ⟨⟨false, b.res.lp, t⟩, b.allocated, b.released + freeTree b.res.t⟩
      else some ⟨⟨true, lp, t⟩, 0, 0⟩
  | n + 1, Fn.disjunction, lp, t =>
      match runFuel n Fn.conjunction lp t with
      | none => none
      | some a =>
        if a.res.ok then
          match runFuel n Fn.disjLoop a.res.lp a.res.t with
          | none => none
          | some c => some ⟨c.res, a.allocated + c.allocated, a.released + c.released⟩
        else some ⟨⟨false, a.res.lp, a.res.t⟩, a.allocated, a.released⟩
  | n + 1, Fn.implication, lp, t =>
      match runFuel n Fn.disjunction lp t with
      | none => none
      | some a =>
        if a.res.ok then
          if (acceptCharacter a.res.lp '-').1 then
            if (acceptCharacter (acceptCharacter a.res.lp '-').2 '>').1 then
              match runFuel n Fn.disjunction
                (acceptCharacter (acceptCharacter a.res.lp '-').2 '>').2 FormTree.null with
              | none => none
              | some b =>
                if b.res.ok then
                  some ⟨⟨true, b.res.lp,
                    newFormTreeNode (Token.symbol '-') a.res.t b.res.t⟩,
                    a.allocated + b.allocated + 1, a.released + b.released⟩
                else
                  -- `freeTree(tR); return 0;`
                  some ⟨⟨false, b.res.lp, a.res.t⟩,
                    a.allocated + b.allocated, a.released + b.released + freeTree b.res.t⟩
            else
              some ⟨⟨true, (acceptCharacter a.res.lp '-').2, a.res.t⟩,
                a.allocated, a.released⟩
          else some ⟨⟨true, a.res.lp, a.res.t⟩, a.allocated, a.released⟩
        else some ⟨⟨false, a.res.lp, a.res.t⟩, a.allocated, a.released⟩
  | n + 1, Fn.biconditional, lp, t =>
      match runFuel n Fn.implication lp t with
      | none => none
      | some a =>
        if a.res.ok then
          if (acceptCharacter a.res.lp '<').1 then
            if (acceptCharacter (acceptCharacter a.res.lp '<').2 '-').1 then
              if (acceptCharacter
                  (acceptCharacter (acceptCharacter a.res.lp '<').2 '-').2 '>').1 then
                match runFuel n Fn.implication
                  (acceptCharacter
                    (acceptCharacter (acceptCharacter a.res.lp '<').2 '-').2 '>').2
                  FormTree.null with
                | none => none
                | some b =>
                  if b.res.ok then
                    some ⟨⟨true, b.res.lp,
                      newFormTreeNode (Token.symbol '<') a.res.t b.res.t⟩,
                      a.allocated + b.allocated + 1, a.released + b.released⟩
                  else
                    -- `freeTree(tR); return 0;`
                    some ⟨⟨false, b.res.lp, a.res.t⟩,
                      a.allocated + b.allocated,
                      a.released + b.released + freeTree b.res.t⟩
              else
                some ⟨⟨true, (acceptCharacter (acceptCharacter a.res.lp '<').2 '-').2,
                  a.res.t⟩, a.allocated, a.released⟩
            else
              some ⟨⟨true, (acceptCharacter a.res.lp '<').2, a.res.t⟩,
                a.allocated, a.released⟩
          else some ⟨⟨true, a.res.lp, a.res.t⟩, a.allocated, a.released⟩
        else some ⟨⟨false, a.res.lp, a.res.t⟩, a.allocated, a.released⟩

/-- The nodes that a call makes unreachable without releasing them. An assignment
`*t = newFormTreeNode(...)` drops the tree that `*t` held before, unless that tree
becomes a child of the new node (`tL = *t` in treeForm.c:107, 125, 144, 165); the nodes of
every dropped tree are counted, with the same budget for the depth of calls as in
`runFuel`. -/
def overwritten : Nat → Fn → List Token → FormTree → Nat
  | 0, _, _, _ => 0
  | n + 1, Fn.atom, lp, t =>
      -- treeForm.c:65, 71 and 53: `*t = newFormTreeNode(...)` over the tree held at entry
      if (acceptCharacter lp 'T').1 then nodeCount t
      else if (acceptCharacter lp 'F').1 then nodeCount t
      else if (treeIdentifier lp t).ok then nodeCount t
      else if (acceptCharacter lp '(').1 then
        overwritten n Fn.biconditional (acceptCharacter lp '(').2 t
      else 0
  | n + 1, Fn.literal, lp, t =>
      if (treeAtom lp t).ok then overwritten n Fn.atom lp t
      else if (acceptCharacter (treeAtom lp t).lp '~').1 then
        if (treeAtom (acceptCharacter (treeAtom lp t).lp '~').2 FormTree.null).ok then
          -- treeForm.c:93: `*t = newFormTreeNode(Symbol, tok, tL, NULL)` over what the
          -- failed `treeAtom(lp,t)` left in `*t`
          overwritten n Fn.atom lp t
            + overwritten n Fn.atom (acceptCharacter (treeAtom lp t).lp '~').2 FormTree.null
            + nodeCount (treeAtom lp t).t
        else
          overwritten n Fn.atom lp t
            + overwritten n Fn.atom (acceptCharacter (treeAtom lp t).lp '~').2 FormTree.null
      else overwritten n Fn.atom lp t
  | n + 1, Fn.conjLoop, lp, t =>
      if (acceptCharacter lp '&').1 then
        if (treeLiteral (acceptCharacter lp '&').2 FormTree.null).ok then
          overwritten n Fn.literal (acceptCharacter lp '&').2 FormTree.null
            + overwritten n Fn.conjLoop
                (treeLiteral (acceptCharacter lp '&').2 FormTree.null).lp
                (newFormTreeNode (Token.symbol '&') t
                  (treeLiteral (acceptCharacter lp '&').2 FormTree.null).t)
        else overwritten n Fn.literal (acceptCharacter lp '&').2 FormTree.null
      else 0
  | n + 1, Fn.conjunction, lp, t =>
      if (treeLiteral lp t).ok then
        overwritten n Fn.literal lp t
          + overwritten n Fn.conjLoop (treeLiteral lp t).lp (treeLiteral lp t).t
      else overwritten n Fn.literal lp t
  | n + 1, Fn.disjLoop, lp, t =>
      if (acceptCharacter lp '|').1 then
        if (treeConjunction (acceptCharacter lp '|').2 FormTree.null).ok then
          overwritten n Fn.conjunction (acceptCharacter lp '|').2 FormTree.null
            + overwritten n Fn.disjLoop
                (treeConjunction (acceptCharacter lp '|').2 FormTree.null).lp
                (newFormTreeNode (Token.symbol '|') t
                  (treeConjunction (acceptCharacter lp '|').2 FormTree.null).t)
        else overwritten n Fn.conjunction (acceptCharacter lp '|').2 FormTree.null
      else 0
  | n + 1, Fn.disjunction, lp, t =>
      if (treeConjunction lp t).ok then
        overwritten n Fn.conjunction lp t
          + overwritten n Fn.disjLoop (treeConjunction lp t).lp (treeConjunction lp t).t
      else overwritten n Fn.conjunction lp t
  | n + 1, Fn.implication, lp, t =>
      if (treeDisjunction lp t).ok then
        if (acceptCharacter (treeDisjunction lp t).lp '-').1 then
          if (acceptCharacter (acceptCharacter (treeDisjunction lp t).lp '-').2 '>').1 then
            overwritten n Fn.disjunction lp t
              + overwritten n Fn.disjunction
                  (acceptCharacter (acceptCharacter (treeDisjunction lp t).lp '-').2 '>').2
                  FormTree.null
          else overwritten n Fn.disjunction lp t
        else overwritten n Fn.disjunction lp t
      else overwritten n Fn.disjunction lp t
  | n + 1, Fn.biconditional, lp, t =>
      if (treeImplication lp t).ok then
        if (acceptCharacter (treeImplication lp t).lp '<').1 then
          if (acceptCharacter (acceptCharacter (treeImplication lp t).lp '<').2 '-').1 then
            if (acceptCharacter
                (acceptCharacter (acceptCharacter (treeImplication lp t).lp '<').2 '-').2
                '>').1 then
              overwritten n Fn.implication lp t
                + overwritten n Fn.implication
                    (acceptCharacter
                      (acceptCharacter (acceptCharacter (treeImplication lp t).lp '<').2
                        '-').2 '>').2
                    FormTree.null
            else overwritten n Fn.implication lp t
          else overwritten n Fn.implication lp t
        else overwritten n Fn.implication lp t
      else overwritten n Fn.implication lp t

/-- The procedure of a grammar level. -/
def Level.fn : Level → Fn
  | Level.atom => Fn.atom
  | Level.literal => Fn.literal
  | Level.conjunction => Fn.conjunction
  | Level.disjunction => Fn.disjunction
  | Level.implication => Fn.implication
  | Level.biconditional => Fn.biconditional

/-- What the parser of a level does on a derivable sequence `w` followed by `rest`
(the statement proved by induction on the derivation). -/
def CompleteAt : Level → List Token → FormTree → Prop
  | Level.atom, w, t => ∀ rest t0, treeAtom (w ++ rest) t0 = ⟨true, rest, t⟩
  | Level.literal, w, t => ∀ rest t0, treeLiteral (w ++ rest) t0 = ⟨true, rest, t⟩
  | Level.conjunction, w, t => ∀ rest t0, treeConjunction (w ++ rest) t0 = conjLoop rest t
  | Level.disjunction, w, t => ∀ rest t0, rest.head? ≠ some (Token.symbol '&') →
      treeDisjunction (w ++ rest) t0 = disjLoop rest t
  | Level.implication, w, t => ∀ rest t0, rest.head? ≠ some (Token.symbol '&') →
      rest.head? ≠ some (Token.symbol '|') → rest.head? ≠ some (Token.symbol '-') →
      treeImplication (w ++ rest) t0 = ⟨true, rest, t⟩
  | Level.biconditional, w, t => ∀ rest t0, rest.head? ≠ some (Token.symbol '&') →
      rest.head? ≠ some (Token.symbol '|') → rest.head? ≠ some (Token.symbol '-') →
      rest.head? ≠ some (Token.symbol '<') →
      treeBiconditional (w ++ rest) t0 = ⟨true, rest, t⟩

/-! ## Unfolding equations of the grammar functions -/

theorem treeAtom_eq (lp : List Token) (t : FormTree) :
    treeAtom lp t =
      if (acceptCharacter lp 'T').1 then
        ⟨true, (acceptCharacter lp 'T').2, node (Token.symbol 'T') null null⟩
      else if (acceptCharacter lp 'F').1 then
        ⟨true, (acceptCharacter lp 'F').2, node (Token.symbol 'F') null null⟩
      else if (treeIdentifier lp t).ok then
        ⟨true, (treeIdentifier lp t).lp, (treeIdentifier lp t).t⟩
      else if (acceptCharacter lp '(').1 then
        if (treeBiconditional (acceptCharacter lp '(').2 t).ok then
          if (acceptCharacter (treeBiconditional (acceptCharacter lp '(').2 t).lp ')').1 then
            ⟨true, (acceptCharacter (treeBiconditional (acceptCharacter lp '(').2 t).lp ')').2,
              (treeBiconditional (acceptCharacter lp '(').2 t).t⟩
          else
            ⟨false, (treeBiconditional (acceptCharacter lp '(').2 t).lp,
              (treeBiconditional (acceptCharacter lp '(').2 t).t⟩
        else
          ⟨false, (treeBiconditional (acceptCharacter lp '(').2 t).lp,
            (treeBiconditional (acceptCharacter lp '(').2 t).t⟩
      else ⟨false, lp, t⟩ := by
  unfold treeAtom treeBiconditional
  rw [treeAtomW]
  simp only [newFormTreeNode]
  repeat' split
  all_goals rfl

theorem treeLiteral_eq (lp : List Token) (t : FormTree) :
    treeLiteral lp t =
      if (treeAtom lp t).ok then
        ⟨true, (treeAtom lp t).lp, (treeAtom lp t).t⟩
      else if (acceptCharacter (treeAtom lp t).lp '~').1 then
        if (treeAtom (acceptCharacter (treeAtom lp t).lp '~').2 null).ok then
          ⟨true, (treeAtom (acceptCharacter (treeAtom lp t).lp '~').2 null).lp,
            node (Token.symbol '~')
              (treeAtom (acceptCharacter (treeAtom lp t).lp '~').2 null).t null⟩
        else
          ⟨false, (treeAtom (acceptCharacter (treeAtom lp t).lp '~').2 null).lp,
            (treeAtom lp t).t⟩
      else ⟨false, (treeAtom lp t).lp, (treeAtom lp t).t⟩ := by
  unfold treeLiteral treeAtom
  rw [treeLiteralW]
  simp only [newFormTreeNode]
  repeat' split
  all_goals rfl

theorem conjLoop_eq (lp : List Token) (t : FormTree) :
    conjLoop lp t =
      if (acceptCharacter lp '&').1 then
        if (treeLiteral (acceptCharacter lp '&').2 null).ok then
          conjLoop (treeLiteral (acceptCharacter lp '&').2 null).lp
            (node (Token.symbol '&') t (treeLiteral (acceptCharacter lp '&').2 null).t)
        else
          ⟨false, (treeLiteral (acceptCharacter lp '&').2 null).lp, t⟩
      else ⟨true, lp, t⟩ := by
  unfold conjLoop treeLiteral
  rw [conjLoopW]
  simp only [newFormTreeNode]
  repeat' split
  all_goals rfl

theorem treeConjunction_eq (lp : List Token) (t : FormTree) :
    treeConjunction lp t =
      if (treeLiteral lp t).ok then
        conjLoop (treeLiteral lp t).lp (treeLiteral lp t).t
      else ⟨false, (treeLiteral lp t).lp, (treeLiteral lp t).t⟩ := by
  unfold treeConjunction conjLoop treeLiteral
  rw [treeConjunctionW]
  rcases treeLiteralW lp t with ⟨r, hr⟩
  simp only
  split
  · rcases conjLoopW r.lp r.t with ⟨r2, hr2⟩
    rfl
  · rfl

theorem disjLoop_eq (lp : List Token) (t : FormTree) :
    disjLoop lp t =
      if (acceptCharacter lp '|').1 then
        if (treeConjunction (acceptCharacter lp '|').2 null).ok then
          disjLoop (treeConjunction (acceptCharacter lp '|').2 null).lp
            (node (Token.symbol '|') t (treeConjunction (acceptCharacter lp '|').2 null).t)
        else
          ⟨false, (treeConjunction (acceptCharacter lp '|').2 null).lp, t⟩
      else ⟨true, lp, t⟩ := by
  unfold disjLoop treeConjunction
  rw [disjLoopW]
  simp only [newFormTreeNode]
  repeat' split
  all_goals rfl

theorem treeDisjunction_eq (lp : List Token) (t : FormTree) :
    treeDisjunction lp t =
      if (treeConjunction lp t).ok then
        disjLoop (treeConjunction lp t).lp (treeConjunction lp t).t
      else ⟨false, (treeConjunction lp t).lp, (treeConjunction lp t).t⟩ := by
  unfold treeDisjunction disjLoop treeConjunction
  rw [treeDisjunctionW]
  rcases treeConjunctionW lp t with ⟨r, hr⟩
  simp only
  split
  · rcases disjLoopW r.lp r.t with ⟨r2, hr2⟩
    rfl
  · rfl

theorem treeImplication_eq (lp : List Token) (t : FormTree) :
    treeImplication lp t =
      if (treeDisjunction lp t).ok then
        if (acceptCharacter (treeDisjunction lp t).lp '-').1 then
          if (acceptCharacter (acceptCharacter (treeDisjunction lp t).lp '-').2 '>').1 then
            if (treeDisjunction
                (acceptCharacter (acceptCharacter (treeDisjunction lp t).lp '-').2 '>').2
                null).ok then
              ⟨true,
                (treeDisjunction
                  (acceptCharacter (acceptCharacter (treeDisjunction lp t).lp '-').2 '>').2
                  null).lp,
                node (Token.symbol '-') (treeDisjunction lp t).t
                  (treeDisjunction
                    (acceptCharacter (acceptCharacter (treeDisjunction lp t).lp '-').2 '>').2
                    null).t⟩
            else
              ⟨false,
                (treeDisjunction
                  (acceptCharacter (acceptCharacter (treeDisjunction lp t).lp '-').2 '>').2
                  null).lp,
                (treeDisjunction lp t).t⟩
          else ⟨true, (acceptCharacter (treeDisjunction lp t).lp '-').2, (treeDisjunction lp t).t⟩
        else ⟨true, (treeDisjunction lp t).lp, (treeDisjunction lp t).t⟩
      else ⟨false, (treeDisjunction lp t).lp, (treeDisjunction lp t).t⟩ := by
  unfold treeImplication treeDisjunction
  rw [treeImplicationW]
  simp only [newFormTreeNode]
  repeat' split
  all_goals rfl

theorem treeBiconditional_eq (lp : List Token) (t : FormTree) :
    treeBiconditional lp t =
      if (treeImplication lp t).ok then
        if (acceptCharacter (treeImplication lp t).lp '<').1 then
          if (acceptCharacter (acceptCharacter (treeImplication lp t).lp '<').2 '-').1 then
            if (acceptCharacter
                (acceptCharacter (acceptCharacter (treeImplication lp t).lp '<').2 '-').2
                '>').1 then
              if (treeImplication
                  (acceptCharacter
                    (acceptCharacter (acceptCharacter (treeImplication lp t).lp '<').2 '-').2
                    '>').2 null).ok then
                ⟨true,
                  (treeImplication
                    (acceptCharacter
                      (acceptCharacter (acceptCharacter (treeImplication lp t).lp '<').2 '-').2
                      '>').2 null).lp,
                  node (Token.symbol '<') (treeImplication lp t).t
                    (treeImplication
                      (acceptCharacter
                        (acceptCharacter (acceptCharacter (treeImplication lp t).lp '<').2 '-').2
                        '>').2 null).t⟩
              else
                ⟨false,
                  (treeImplication
                    (acceptCharacter
                      (acceptCharacter (acceptCharacter (treeImplication lp t).lp '<').2 '-').2
                      '>').2 null).lp,
                  (treeImplication lp t).t⟩
            else
              ⟨true, (acceptCharacter (acceptCharacter (treeImplication lp t).lp '<').2 '-').2,
                (treeImplication lp t).t⟩
          else ⟨true, (acceptCharacter (treeImplication lp t).lp '<').2, (treeImplication lp t).t⟩
        else ⟨true, (treeImplication lp t).lp, (treeImplication lp t).t⟩
      else ⟨false, (treeImplication lp t).lp, (treeImplication lp t).t⟩ := by
  unfold treeBiconditional treeImplication
  rw [treeBiconditionalW]
  simp only [newFormTreeNode]
  repeat' split
  all_goals rfl

/-! ## Token acceptance -/

@[simp] theorem acceptCharacter_nil (c : Char) : acceptCharacter [] c = (false, []) := rfl

@[simp] theorem acceptCharacter_identifier (name : String) (rest : List Token) (c : Char) :
    acceptCharacter (Token.identifier name :: rest) c
      = (false, Token.identifier name :: rest) := rfl

@[simp] theorem acceptCharacter_same (c : Char) (rest : List Token) :
    acceptCharacter (Token.symbol c :: rest) c = (true, rest) := by
  simp [acceptCharacter]

theorem acceptCharacter_other {s c : Char} (h : s ≠ c) (rest : List Token) :
    acceptCharacter (Token.symbol s :: rest) c = (false, Token.symbol s :: rest) := by
  simp [acceptCharacter, h]

theorem acceptCharacter_false {lp : List Token} {c : Char}
    (h : (acceptCharacter lp c).1 = false) : (acceptCharacter lp c).2 = lp := by
  unfold acceptCharacter at h ⊢
  split
  · split
    · rename_i hs
      simp [hs] at h
    · rfl
  · rfl

theorem acceptCharacter_true {lp : List Token} {c : Char}
    (h : (acceptCharacter lp c).1 = true) :
    lp = Token.symbol c :: (acceptCharacter lp c).2 := by
  unfold acceptCharacter at h ⊢
  split
  · split
    · rename_i hs
      simp [hs]
    · rename_i hs
      simp [hs] at h
  · rename_i hs
    simp at h

theorem acceptCharacter_head (lp : List Token) (c : Char) :
    acceptCharacter lp c
      = (if lp.head? = some (Token.symbol c) then (true, lp.tail) else (false, lp)) := by
  cases lp with
  | nil => simp
  | cons tok rest =>
    cases tok with
    | identifier name => simp
    | symbol s =>
      by_cases h : s = c
      · subst h
        simp
      · simp [acceptCharacter_other h, h]

theorem acceptCharacter_of_head_ne {lp : List Token} {c : Char}
    (h : lp.head? ≠ some (Token.symbol c)) : acceptCharacter lp c = (false, lp) := by
  rw [acceptCharacter_head, if_neg h]

/-- C4. `acceptCharacter` succeeds exactly when the first token is the symbol `c`, and
then the cursor is the rest of the sequence; in every other case (empty sequence, an
identifier, another symbol) it fails and the cursor is unchanged. The cursor never
advances by more than one token. -/
theorem acceptCharacter_contract (lp : List Token) (c : Char) :
    acceptCharacter lp c
        = (if lp.head? = some (Token.symbol c) then (true, lp.tail) else (false, lp))
      ∧ (acceptCharacter [] c = (false, []))
      ∧ (∀ name rest, acceptCharacter (Token.identifier name :: rest) c
            = (false, Token.identifier name :: rest))
      ∧ (∀ s rest, acceptCharacter (Token.symbol s :: rest) c
            = (if s = c then (true, rest) else (false, Token.symbol s :: rest)))
      ∧ lp.length ≤ (acceptCharacter lp c).2.length + 1 := by
  refine ⟨acceptCharacter_head lp c, rfl, fun _ _ => rfl, fun _ _ => rfl, ?_⟩
  · cases lp with
    | nil => simp
    | cons tok rest =>
      cases tok with
      | identifier name => simp
      | symbol s =>
        by_cases h : s = c
        · subst h
          simp
        · simp [acceptCharacter_other h]

/-! ## The printer and the complexity metric -/

/-- C6. The text `printTree` emits is the canonical rendering of the specification:
nothing for an absent tree, the character for `T` and `F`, the name for an identifier,
`(~l)` for a negation, `(l -> r)` for `-`, `(l <-> r)` for `<` and `(l c r)` for every
other symbol `c`. -/
theorem printTree_canonical (t : FormTree) : printTree t = canonicalRendering t := by
  induction t with
  | null => rfl
  | node tok left right ihl ihr =>
    cases tok with
    | identifier name => rfl
    | symbol c =>
      simp only [printTree, canonicalRendering, ihl, ihr]
      by_cases hT : c = 'T'
      · subst hT
        rfl
      · by_cases hF : c = 'F'
        · subst hF
          rfl
        · simp only [hT, hF, or_self, if_false, String.append_assoc]

theorem complexityTree_node (tok : Token) (left right : FormTree) :
    complexityTree (FormTree.node tok left right)
      = 1 + max (complexityTree left) (complexityTree right) := by
  simp only [complexityTree]
  split <;> omega

theorem complexityTree_perfect (d : Nat) :
    ∀ t : FormTree, isPerfect d t = true → complexityTree t = d := by
  induction d with
  | zero =>
    intro t h
    cases t with
    | null => rfl
    | node tok l r => simp [isPerfect] at h
  | succ d ih =>
    intro t h
    cases t with
    | null => simp [isPerfect] at h
    | node tok l r =>
      simp only [isPerfect, Bool.and_eq_true] at h
      rw [complexityTree_node, ih l h.1, ih r h.2]
      simp
      omega

/-- C7. `complexityTree` is the maximum depth: 0 for an absent tree and one more than
the larger of the depths of the children for a node; so a terminal has complexity 1, a
negation over a terminal has complexity 2 and a perfect binary tree with `d` levels has
complexity `d`. -/
theorem complexityTree_depth :
    complexityTree FormTree.null = 0
      ∧ (∀ tok left right, complexityTree (FormTree.node tok left right)
            = 1 + max (complexityTree left) (complexityTree right))
      ∧ (∀ tok, complexityTree (leaf tok) = 1)
      ∧ (∀ tok, complexityTree
            (FormTree.node (Token.symbol '~') (leaf tok) FormTree.null) = 2)
      ∧ (∀ d t, isPerfect d t = true → complexityTree t = d) :=
  ⟨rfl, complexityTree_node, fun _ => rfl, fun _ => rfl, complexityTree_perfect⟩

/-- Witness for C7: a perfect tree with three levels. -/
theorem complexityTree_depth_witness :
    isPerfect 3
        (FormTree.node (Token.symbol '&')
          (FormTree.node (Token.symbol '|') (leaf (Token.identifier "a"))
            (leaf (Token.identifier "b")))
          (FormTree.node (Token.symbol '|') (leaf (Token.symbol 'T'))
            (leaf (Token.identifier "c")))) = true
      ∧ complexityTree
        (FormTree.node (Token.symbol '&')
          (FormTree.node (Token.symbol '|') (leaf (Token.identifier "a"))
            (leaf (Token.identifier "b")))
          (FormTree.node (Token.symbol '|') (leaf (Token.symbol 'T'))
            (leaf (Token.identifier "c")))) = 3 :=
  ⟨by decide, complexityTree_depth.2.2.2.2 3 _ (by decide)⟩

/-! ## Completeness of the parser for the grammar -/

theorem conjLoop_stop {rest : List Token} (h : rest.head? ≠ some (Token.symbol '&'))
    (t : FormTree) : conjLoop rest t = ⟨true, rest, t⟩ := by
  rw [conjLoop_eq, acceptCharacter_of_head_ne h]
  simp

theorem disjLoop_stop {rest : List Token} (h : rest.head? ≠ some (Token.symbol '|'))
    (t : FormTree) : disjLoop rest t = ⟨true, rest, t⟩ := by
  rw [disjLoop_eq, acceptCharacter_of_head_ne h]
  simp

theorem treeAtom_symbol_fail {c : Char} (hT : c ≠ 'T') (hF : c ≠ 'F') (hP : c ≠ '(')
    (rest : List Token) (t : FormTree) :
    treeAtom (Token.symbol c :: rest) t = ⟨false, Token.symbol c :: rest, t⟩ := by
  rw [treeAtom_eq]
  simp [acceptCharacter_other hT, acceptCharacter_other hF, acceptCharacter_other hP,
    treeIdentifier]

theorem treeAtom_nil (t : FormTree) : treeAtom [] t = ⟨false, [], t⟩ := by
  rw [treeAtom_eq]
  simp [treeIdentifier]

theorem derives_completeAt {L : Level} {w : List Token} {t : FormTree}
    (h : Derives L w t) : CompleteAt L w t := by
  induction h with
  | constT =>
    intro rest t0
    rw [treeAtom_eq]
    simp [leaf]
  | constF =>
    intro rest t0
    rw [treeAtom_eq]
    simp [leaf, acceptCharacter_other (show 'F' ≠ 'T' by decide)]
  | ident name =>
    intro rest t0
    rw [treeAtom_eq]
    simp [leaf, treeIdentifier, newFormTreeNode]
  | paren _ ih =>
    intro rest t0
    have h1 := ih (Token.symbol ')' :: rest) t0 (by simp) (by simp) (by simp) (by simp)
    rw [treeAtom_eq]
    simp [acceptCharacter_other (show '(' ≠ 'T' by decide),
      acceptCharacter_other (show '(' ≠ 'F' by decide), treeIdentifier, h1]
  | litAtom _ ih =>
    intro rest t0
    rw [treeLiteral_eq, ih rest t0]
    simp
  | litNeg _ ih =>
    intro rest t0
    rw [treeLiteral_eq]
    simp [treeAtom_symbol_fail (show '~' ≠ 'T' by decide) (show '~' ≠ 'F' by decide)
      (show '~' ≠ '(' by decide), ih rest FormTree.null]
  | conjOne _ ih =>
    intro rest t0
    rw [treeConjunction_eq, ih rest t0]
    simp
  | @conjMore w1 w2 t1 t2 _ _ ih1 ih2 =>
    intro rest t0
    have h1 := ih1 (Token.symbol '&' :: (w2 ++ rest)) t0
    simp only [List.append_assoc, List.cons_append] at h1 ⊢
    rw [h1, conjLoop_eq]
    simp [ih2 rest FormTree.null]
  | disjOne _ ih =>
    intro rest t0 hA
    rw [treeDisjunction_eq, ih rest t0, conjLoop_stop hA]
    simp
  | @disjMore w1 w2 t1 t2 _ _ ih1 ih2 =>
    intro rest t0 hA
    have h1 := ih1 (Token.symbol '|' :: (w2 ++ rest)) t0 (by simp)
    simp only [List.append_assoc, List.cons_append] at h1 ⊢
    rw [h1, disjLoop_eq]
    simp [ih2 rest FormTree.null, conjLoop_stop hA]
  | implOne _ ih =>
    intro rest t0 hA hO hM
    rw [treeImplication_eq, ih rest t0 hA, disjLoop_stop hO]
    simp [acceptCharacter_of_head_ne hM]
  | @implArrow w1 w2 t1 t2 _ _ ih1 ih2 =>
    intro rest t0 hA hO hM
    have h1 := ih1 (Token.symbol '-' :: Token.symbol '>' :: (w2 ++ rest)) t0 (by simp)
    simp only [List.append_assoc, List.cons_append] at h1 ⊢
    rw [treeImplication_eq, h1, disjLoop_stop (by simp)]
    simp [ih2 rest FormTree.null hA, disjLoop_stop hO]
  | bicOne _ ih =>
    intro rest t0 hA hO hM hL
    rw [treeBiconditional_eq, ih rest t0 hA hO hM]
    simp [acceptCharacter_of_head_ne hL]
  | @bicArrow w1 w2 t1 t2 _ _ ih1 ih2 =>
    intro rest t0 hA hO hM hL
    have h1 := ih1 (Token.symbol '<' :: Token.symbol '-' :: Token.symbol '>' :: (w2 ++ rest))
      t0 (by simp) (by simp) (by simp)
    simp only [List.append_assoc, List.cons_append] at h1 ⊢
    rw [treeBiconditional_eq, h1]
    simp [ih2 rest FormTree.null hA hO hM]

/-- C1. Completeness: on every token sequence `w` derivable from the `biconditional`
production, `treeBiconditional` (called with any initial value of the output parameter)
succeeds, leaves the cursor at the end of the input and returns the syntax tree of the
derivation. -/
theorem treeBiconditional_complete (w : List Token) (t : FormTree)
    (h : Derives Level.biconditional w t) (t0 : FormTree) :
    treeBiconditional w t0 = ⟨true, [], t⟩ := by
  have h1 := derives_completeAt h [] t0 (by simp) (by simp) (by simp) (by simp)
  simpa using h1

/-- Witness for C1: the derivation of `a & b`. -/
theorem treeBiconditional_complete_witness :
    Derives Level.biconditional
        [Token.identifier "a", Token.symbol '&', Token.identifier "b"]
        (FormTree.node (Token.symbol '&') (leaf (Token.identifier "a"))
          (leaf (Token.identifier "b")))
      ∧ treeBiconditional [Token.identifier "a", Token.symbol '&', Token.identifier "b"]
          FormTree.null
        = ⟨true, [], FormTree.node (Token.symbol '&') (leaf (Token.identifier "a"))
            (leaf (Token.identifier "b"))⟩ :=
  ⟨Derives.bicOne (Derives.implOne (Derives.disjOne (Derives.conjMore
      (Derives.conjOne (Derives.litAtom (Derives.ident "a")))
      (Derives.litAtom (Derives.ident "b"))))),
   treeBiconditional_complete _ _
    (Derives.bicOne (Derives.implOne (Derives.disjOne (Derives.conjMore
      (Derives.conjOne (Derives.litAtom (Derives.ident "a")))
      (Derives.litAtom (Derives.ident "b")))))) FormTree.null⟩

/-! ## Precedence, associativity and non-chaining -/

theorem derives_terminal {a : Token} (h : isTerminal a = true) :
    Derives Level.atom [a] (leaf a) := by
  cases a with
  | identifier name => exact Derives.ident name
  | symbol c =>
    simp only [isTerminal, Bool.or_eq_true, decide_eq_true_eq] at h
    rcases h with h | h
    · subst h
      exact Derives.constT
    · subst h
      exact Derives.constF

theorem treeLiteral_terminal {a : Token} (h : isTerminal a = true) (rest : List Token)
    (t0 : FormTree) : treeLiteral (a :: rest) t0 = ⟨true, rest, leaf a⟩ :=
  derives_completeAt (Derives.litAtom (derives_terminal h)) rest t0

/-- C8. Precedence: for terminal tokens `a b c d e`, `treeBiconditional` on
`~ a & b | c - > d < - > e` succeeds, consumes every token and returns
`<->( ->( |( &( ~(a), b ), c ), d ), e )`. -/
theorem treeBiconditional_precedence (a b c d e : Token) (t0 : FormTree)
    (ha : isTerminal a = true) (hb : isTerminal b = true) (hc : isTerminal c = true)
    (hd : isTerminal d = true) (he : isTerminal e = true) :
    treeBiconditional
        [Token.symbol '~', a, Token.symbol '&', b, Token.symbol '|', c,
          Token.symbol '-', Token.symbol '>', d,
          Token.symbol '<', Token.symbol '-', Token.symbol '>', e] t0
      = ⟨true, [],
          FormTree.node (Token.symbol '<')
            (FormTree.node (Token.symbol '-')
              (FormTree.node (Token.symbol '|')
                (FormTree.node (Token.symbol '&')
                  (FormTree.node (Token.symbol '~') (leaf a) FormTree.null)
                  (leaf b))
                (leaf c))
              (leaf d))
            (leaf e)⟩ := by
  have hder : Derives Level.biconditional
      [Token.symbol '~', a, Token.symbol '&', b, Token.symbol '|', c,
        Token.symbol '-', Token.symbol '>', d,
        Token.symbol '<', Token.symbol '-', Token.symbol '>', e]
      (FormTree.node (Token.symbol '<')
        (FormTree.node (Token.symbol '-')
          (FormTree.node (Token.symbol '|')
            (FormTree.node (Token.symbol '&')
              (FormTree.node (Token.symbol '~') (leaf a) FormTree.null)
              (leaf b))
            (leaf c))
          (leaf d))
        (leaf e)) :=
    Derives.bicArrow
      (Derives.implArrow
        (Derives.disjMore
          (Derives.disjOne (Derives.conjMore
            (Derives.conjOne (Derives.litNeg (derives_terminal ha)))
            (Derives.litAtom (derives_terminal hb))))
          (Derives.conjOne (Derives.litAtom (derives_terminal hc))))
        (Derives.disjOne (Derives.conjOne (Derives.litAtom (derives_terminal hd)))))
      (Derives.implOne (Derives.disjOne (Derives.conjOne
        (Derives.litAtom (derives_terminal he)))))
  have h1 := derives_completeAt hder [] t0 (by simp) (by simp) (by simp) (by simp)
  simpa using h1

/-- Witness for C8: `~ p & T | q -> F <-> r`. -/
theorem treeBiconditional_precedence_witness :
    treeBiconditional
        [Token.symbol '~', Token.identifier "p", Token.symbol '&', Token.symbol 'T',
          Token.symbol '|', Token.identifier "q",
          Token.symbol '-', Token.symbol '>', Token.symbol 'F',
          Token.symbol '<', Token.symbol '-', Token.symbol '>', Token.identifier "r"]
        FormTree.null
      = ⟨true, [],
          FormTree.node (Token.symbol '<')
            (FormTree.node (Token.symbol '-')
              (FormTree.node (Token.symbol '|')
                (FormTree.node (Token.symbol '&')
                  (FormTree.node (Token.symbol '~') (leaf (Token.identifier "p"))
                    FormTree.null)
                  (leaf (Token.symbol 'T')))
                (leaf (Token.identifier "q")))
              (leaf (Token.symbol 'F')))
            (leaf (Token.identifier "r"))⟩ :=
  treeBiconditional_precedence (Token.identifier "p") (Token.symbol 'T')
    (Token.identifier "q") (Token.symbol 'F') (Token.identifier "r") FormTree.null
    (by decide) (by decide) (by decide) (by decide) (by decide)

theorem opTail_append_head_ne {op c : Char} (h : op ≠ c) (ys rest : List Token)
    (hr : rest.head? ≠ some (Token.symbol c)) :
    (opTail op ys ++ rest).head? ≠ some (Token.symbol c) := by
  cases ys with
  | nil => simpa [opTail] using hr
  | cons y ys => simp [opTail, h]

theorem conjLoop_chain (ys : List Token) :
    ∀ (acc : FormTree) (rest : List Token), (∀ y ∈ ys, isTerminal y = true) →
      rest.head? ≠ some (Token.symbol '&') →
      conjLoop (opTail '&' ys ++ rest) acc
        = ⟨true, rest,
            ys.foldl (fun a y => FormTree.node (Token.symbol '&') a (leaf y)) acc⟩ := by
  induction ys with
  | nil =>
    intro acc rest _ hr
    simpa [opTail] using conjLoop_stop hr acc
  | cons y ys ih =>
    intro acc rest hys hr
    have hy : isTerminal y = true := hys y (by simp)
    have hys2 : ∀ z ∈ ys, isTerminal z = true := fun z hz => hys z (by simp [hz])
    rw [conjLoop_eq]
    simp [opTail, treeLiteral_terminal hy, ih _ rest hys2 hr]

theorem disjLoop_chain (ys : List Token) :
    ∀ (acc : FormTree) (rest : List Token), (∀ y ∈ ys, isTerminal y = true) →
      rest.head? ≠ some (Token.symbol '|') → rest.head? ≠ some (Token.symbol '&') →
      disjLoop (opTail '|' ys ++ rest) acc
        = ⟨true, rest,
            ys.foldl (fun a y => FormTree.node (Token.symbol '|') a (leaf y)) acc⟩ := by
  induction ys with
  | nil =>
    intro acc rest _ hr _
    simpa [opTail] using disjLoop_stop hr acc
  | cons y ys ih =>
    intro acc rest hys hr hr2
    have hy : isTerminal y = true := hys y (by simp)
    have hys2 : ∀ z ∈ ys, isTerminal z = true := fun z hz => hys z (by simp [hz])
    have hstop := conjLoop_stop
      (opTail_append_head_ne (show '|' ≠ '&' by decide) ys rest hr2) (leaf y)
    rw [disjLoop_eq]
    simp [opTail, treeConjunction_eq, treeLiteral_terminal hy, hstop, ih _ rest hys2 hr hr2]

theorem joinWith_length (op : Char) (x : Token) (ys : List Token) :
    (joinWith op x ys).length = 2 * (ys.length + 1) - 1 := by
  have h : ∀ zs : List Token, (opTail op zs).length = 2 * zs.length := by
    intro zs
    induction zs with
    | nil => rfl
    | cons z zs ih =>
      simp only [opTail, List.length_cons, ih]
      omega
  simp only [joinWith, List.length_cons, h]
  omega

/-- C9 as stated fails for `treeDisjunction`: on `a | b` followed by `& c` (a token other
than `|`) it does not stop after the three tokens `a | b`: it consumes all five tokens
and the right child of the root is the conjunction of `b` and `c`. -/
theorem treeDisjunction_chain_counterexample :
    [Token.symbol '&', Token.identifier "c"].head? ≠ some (Token.symbol '|')
      ∧ treeDisjunction
          (joinWith '|' (Token.identifier "a") [Token.identifier "b"]
            ++ [Token.symbol '&', Token.identifier "c"]) FormTree.null
        = ⟨true, [],
            FormTree.node (Token.symbol '|') (leaf (Token.identifier "a"))
              (FormTree.node (Token.symbol '&') (leaf (Token.identifier "b"))
                (leaf (Token.identifier "c")))⟩
      ∧ treeDisjunction
          (joinWith '|' (Token.identifier "a") [Token.identifier "b"]
            ++ [Token.symbol '&', Token.identifier "c"]) FormTree.null
        ≠ ⟨true, [Token.symbol '&', Token.identifier "c"],
            foldLeft '|' (Token.identifier "a") [Token.identifier "b"]⟩ := by
  have h : treeDisjunction
      (joinWith '|' (Token.identifier "a") [Token.identifier "b"]
        ++ [Token.symbol '&', Token.identifier "c"]) FormTree.null
      = ⟨true, [],
          FormTree.node (Token.symbol '|') (leaf (Token.identifier "a"))
            (FormTree.node (Token.symbol '&') (leaf (Token.identifier "b"))
              (leaf (Token.identifier "c")))⟩ := by
    simp [joinWith, opTail, leaf, treeDisjunction_eq, disjLoop_eq, treeConjunction_eq,
      conjLoop_eq, treeLiteral_eq, treeAtom_eq, acceptCharacter, treeIdentifier,
      newFormTreeNode]
  refine ⟨by simp, h, ?_⟩
  rw [h]
  simp

/-- C9 (amended). Left-associative fold: for terminal operands `x, y1, ..., yk`
(so `n = k + 1` operands and `2n - 1` tokens), `treeConjunction` on `x & y1 & ... & yk`
followed by the end of the input or by a token other than `&` succeeds, leaves exactly
what follows and returns the left-nested tree; `treeDisjunction` does the same with `|`
when what follows begins with neither `|` nor `&`. For `a & b & c` the root has the
conjunction of `a` and `b` as left child and `c` as right child. -/
theorem chain_left_assoc (x : Token) (ys rest : List Token) (t0 : FormTree)
    (hx : isTerminal x = true) (hys : ∀ y ∈ ys, isTerminal y = true) :
    (joinWith '&' x ys).length = 2 * (ys.length + 1) - 1
      ∧ (rest.head? ≠ some (Token.symbol '&') →
          treeConjunction (joinWith '&' x ys ++ rest) t0
            = ⟨true, rest, foldLeft '&' x ys⟩)
      ∧ (rest.head? ≠ some (Token.symbol '|') → rest.head? ≠ some (Token.symbol '&') →
          treeDisjunction (joinWith '|' x ys ++ rest) t0
            = ⟨true, rest, foldLeft '|' x ys⟩)
      ∧ (∀ a b c : Token,
          joinWith '&' a [b, c] = [a, Token.symbol '&', b, Token.symbol '&', c]
            ∧ foldLeft '&' a [b, c]
              = FormTree.node (Token.symbol '&')
                  (FormTree.node (Token.symbol '&') (leaf a) (leaf b)) (leaf c)) := by
  refine ⟨joinWith_length '&' x ys, ?_, ?_, fun _ _ _ => ⟨rfl, rfl⟩⟩
  · intro hr
    rw [treeConjunction_eq]
    simp [joinWith, foldLeft, treeLiteral_terminal hx, conjLoop_chain ys _ rest hys hr]
  · intro hr hr2
    have hstop := conjLoop_stop
      (opTail_append_head_ne (show '|' ≠ '&' by decide) ys rest hr2) (leaf x)
    rw [treeDisjunction_eq]
    simp [joinWith, foldLeft, treeConjunction_eq, treeLiteral_terminal hx, hstop,
      disjLoop_chain ys _ rest hys hr hr2]

/-- Witness for C9: `a & b & c` followed by `| d`, and `a | b | c` followed by `)`. -/
theorem chain_left_assoc_witness :
    treeConjunction
        (joinWith '&' (Token.identifier "a") [Token.identifier "b", Token.identifier "c"]
          ++ [Token.symbol '|', Token.identifier "d"]) FormTree.null
      = ⟨true, [Token.symbol '|', Token.identifier "d"],
          foldLeft '&' (Token.identifier "a")
            [Token.identifier "b", Token.identifier "c"]⟩
    ∧ treeDisjunction
        (joinWith '|' (Token.identifier "a") [Token.identifier "b", Token.identifier "c"]
          ++ [Token.symbol ')']) FormTree.null
      = ⟨true, [Token.symbol ')'],
          foldLeft '|' (Token.identifier "a")
            [Token.identifier "b", Token.identifier "c"]⟩ :=
  ⟨(chain_left_assoc (Token.identifier "a") [Token.identifier "b", Token.identifier "c"]
      [Token.symbol '|', Token.identifier "d"] FormTree.null (by decide)
      (by decide)).2.1 (by decide),
   (chain_left_assoc (Token.identifier "a") [Token.identifier "b", Token.identifier "c"]
      [Token.symbol ')'] FormTree.null (by decide)
      (by decide)).2.2.1 (by decide) (by decide)⟩

/-- C10. Non-chaining: when `treeDisjunction` matches a first operand and stops in front
of `- >` and then matches a second operand, `treeImplication` returns the `-` node over
the two trees and leaves the cursor exactly where the second `treeDisjunction` left it,
whatever follows; likewise `treeBiconditional` with `< - >` and `treeImplication`. On the
tokens of `a -> b -> c`, `treeBiconditional` returns the tree of `a -> b` and leaves the
three tokens `- > c`, so the cursor is not at the end of the input. -/
theorem arrows_do_not_chain (lp lp2 lp3 : List Token) (t t1 t2 : FormTree) :
    (treeDisjunction lp t = ⟨true, Token.symbol '-' :: Token.symbol '>' :: lp2, t1⟩ →
      treeDisjunction lp2 FormTree.null = ⟨true, lp3, t2⟩ →
      treeImplication lp t = ⟨true, lp3, FormTree.node (Token.symbol '-') t1 t2⟩)
    ∧ (treeImplication lp t
          = ⟨true, Token.symbol '<' :: Token.symbol '-' :: Token.symbol '>' :: lp2, t1⟩ →
      treeImplication lp2 FormTree.null = ⟨true, lp3, t2⟩ →
      treeBiconditional lp t = ⟨true, lp3, FormTree.node (Token.symbol '<') t1 t2⟩)
    ∧ (treeBiconditional
          [Token.identifier "a", Token.symbol '-', Token.symbol '>',
            Token.identifier "b", Token.symbol '-', Token.symbol '>',
            Token.identifier "c"] t
        = ⟨true, [Token.symbol '-', Token.symbol '>', Token.identifier "c"],
            FormTree.node (Token.symbol '-') (leaf (Token.identifier "a"))
              (leaf (Token.identifier "b"))⟩
      ∧ (treeBiconditional
          [Token.identifier "a", Token.symbol '-', Token.symbol '>',
            Token.identifier "b", Token.symbol '-', Token.symbol '>',
            Token.identifier "c"] t).lp ≠ []) := by
  refine ⟨?_, ?_, ?_⟩
  · intro h1 h2
    rw [treeImplication_eq, h1]
    simp [h2]
  · intro h1 h2
    rw [treeBiconditional_eq, h1]
    simp [h2]
  · have h : treeBiconditional
        [Token.identifier "a", Token.symbol '-', Token.symbol '>',
          Token.identifier "b", Token.symbol '-', Token.symbol '>',
          Token.identifier "c"] t
        = ⟨true, [Token.symbol '-', Token.symbol '>', Token.identifier "c"],
            FormTree.node (Token.symbol '-') (leaf (Token.identifier "a"))
              (leaf (Token.identifier "b"))⟩ := by
      simp [leaf, treeBiconditional_eq, treeImplication_eq, treeDisjunction_eq, disjLoop_eq,
        treeConjunction_eq, conjLoop_eq, treeLiteral_eq, treeAtom_eq, acceptCharacter,
        treeIdentifier, newFormTreeNode]
    rw [h]
    simp

/-- Witness for C10: `a -> b -> c` at the implication level, `a <-> b <-> c` at the
biconditional level. -/
theorem arrows_do_not_chain_witness :
    treeImplication
        [Token.identifier "a", Token.symbol '-', Token.symbol '>',
          Token.identifier "b", Token.symbol '-', Token.symbol '>',
          Token.identifier "c"] FormTree.null
      = ⟨true, [Token.symbol '-', Token.symbol '>', Token.identifier "c"],
          FormTree.node (Token.symbol '-') (leaf (Token.identifier "a"))
            (leaf (Token.identifier "b"))⟩
    ∧ treeBiconditional
        [Token.identifier "a", Token.symbol '<', Token.symbol '-', Token.symbol '>',
          Token.identifier "b", Token.symbol '<', Token.symbol '-', Token.symbol '>',
          Token.identifier "c"] FormTree.null
      = ⟨true,
          [Token.symbol '<', Token.symbol '-', Token.symbol '>', Token.identifier "c"],
          FormTree.node (Token.symbol '<') (leaf (Token.identifier "a"))
            (leaf (Token.identifier "b"))⟩ :=
  ⟨(arrows_do_not_chain
      [Token.identifier "a", Token.symbol '-', Token.symbol '>',
        Token.identifier "b", Token.symbol '-', Token.symbol '>', Token.identifier "c"]
      [Token.identifier "b", Token.symbol '-', Token.symbol '>', Token.identifier "c"]
      [Token.symbol '-', Token.symbol '>', Token.identifier "c"]
      FormTree.null (leaf (Token.identifier "a")) (leaf (Token.identifier "b"))).1
      (by simp [leaf, treeDisjunction_eq, disjLoop_eq, treeConjunction_eq, conjLoop_eq,
            treeLiteral_eq, treeAtom_eq, acceptCharacter, treeIdentifier, newFormTreeNode])
      (by simp [leaf, treeDisjunction_eq, disjLoop_eq, treeConjunction_eq, conjLoop_eq,
            treeLiteral_eq, treeAtom_eq, acceptCharacter, treeIdentifier, newFormTreeNode]),
   (arrows_do_not_chain
      [Token.identifier "a", Token.symbol '<', Token.symbol '-', Token.symbol '>',
        Token.identifier "b", Token.symbol '<', Token.symbol '-', Token.symbol '>',
        Token.identifier "c"]
      [Token.identifier "b", Token.symbol '<', Token.symbol '-', Token.symbol '>',
        Token.identifier "c"]
      [Token.symbol '<', Token.symbol '-', Token.symbol '>', Token.identifier "c"]
      FormTree.null (leaf (Token.identifier "a")) (leaf (Token.identifier "b"))).2.1
      (by simp [leaf, treeImplication_eq, treeDisjunction_eq, disjLoop_eq,
            treeConjunction_eq, conjLoop_eq,
            treeLiteral_eq, treeAtom_eq, acceptCharacter, treeIdentifier, newFormTreeNode])
      (by simp [leaf, treeImplication_eq, treeDisjunction_eq, disjLoop_eq,
            treeConjunction_eq, conjLoop_eq,
            treeLiteral_eq, treeAtom_eq, acceptCharacter, treeIdentifier, newFormTreeNode])⟩

/-! ## Induction over the calls of the parser -/

theorem run_length_le (f : Fn) (lp : List Token) (t : FormTree) :
    (run f lp t).lp.length ≤ lp.length := by
  cases f
  · exact (treeAtomW lp t).2
  · exact (treeLiteralW lp t).2
  · exact (conjLoopW lp t).2
  · exact (treeConjunctionW lp t).2
  · exact (disjLoopW lp t).2
  · exact (treeDisjunctionW lp t).2
  · exact (treeImplicationW lp t).2
  · exact (treeBiconditionalW lp t).2

/-- Induction over the calls of the parser: a property of every call follows when it
follows from the property of the calls on a shorter cursor and of the calls of a
lower-ranked procedure on a cursor that is not longer. -/
theorem parser_induction {P : Fn → List Token → FormTree → Prop}
    (step : ∀ f lp t,
      (∀ f2 lp2 t2, lp2.length < lp.length → P f2 lp2 t2) →
      (∀ f2 lp2 t2, lp2.length ≤ lp.length → f2.rank < f.rank → P f2 lp2 t2) →
      P f lp t) :
    ∀ f lp t, P f lp t := by
  have hrank : ∀ f : Fn, f.rank < 7 := by
    intro f
    cases f <;> decide
  have main : ∀ n : Nat, ∀ f lp t, lp.length * 7 + f.rank < n → P f lp t := by
    intro n
    induction n with
    | zero =>
      intro f lp t h
      omega
    | succ n ih =>
      intro f lp t h
      apply step
      · intro f2 lp2 t2 h2
        apply ih
        have := hrank f2
        omega
      · intro f2 lp2 t2 h2 h3
        apply ih
        omega
  intro f lp t
  exact main _ f lp t (Nat.lt_succ_self _)

theorem parseLevel_eq_run (L : Level) : parseLevel L = run L.fn := by
  cases L <;> rfl

theorem acceptCharacter_suffix (lp : List Token) (c : Char) :
    (acceptCharacter lp c).2 <:+ lp := by
  rw [acceptCharacter_head]
  split
  · exact List.tail_suffix lp
  · exact List.suffix_refl lp

theorem treeIdentifier_suffix (lp : List Token) (t : FormTree) :
    (treeIdentifier lp t).lp <:+ lp := by
  unfold treeIdentifier
  split
  · exact List.suffix_cons _ _
  · exact List.suffix_refl lp

/-- The cursor only moves forward: what a procedure leaves is a suffix of what it got. -/
theorem run_suffix : ∀ f lp t, (run f lp t).lp <:+ lp := by
  apply parser_induction
  intro f lp t ih1 ih2
  cases f with
  | atom =>
    show (treeAtom lp t).lp <:+ lp
    rw [treeAtom_eq]
    split_ifs with h1 h2 h3 h4 h5 h6
    · exact acceptCharacter_suffix lp 'T'
    · exact acceptCharacter_suffix lp 'F'
    · exact treeIdentifier_suffix lp t
    · exact ((acceptCharacter_suffix _ ')').trans
        (ih1 Fn.biconditional _ t (acceptCharacter_length_lt lp '(' h4))).trans
        (acceptCharacter_suffix lp '(')
    · exact (ih1 Fn.biconditional _ t (acceptCharacter_length_lt lp '(' h4)).trans
        (acceptCharacter_suffix lp '(')
    · exact (ih1 Fn.biconditional _ t (acceptCharacter_length_lt lp '(' h4)).trans
        (acceptCharacter_suffix lp '(')
    · exact List.suffix_refl lp
  | literal =>
    show (treeLiteral lp t).lp <:+ lp
    have a : (treeAtom lp t).lp <:+ lp := ih2 Fn.atom lp t (Nat.le_refl _) (by decide)
    have b := acceptCharacter_suffix (treeAtom lp t).lp '~'
    rw [treeLiteral_eq]
    split_ifs with h1 h2 h3
    · exact a
    · exact (ih1 Fn.atom _ FormTree.null
        (Nat.lt_of_lt_of_le (acceptCharacter_length_lt _ '~' h2) a.length_le)).trans
        (b.trans a)
    · exact (ih1 Fn.atom _ FormTree.null
        (Nat.lt_of_lt_of_le (acceptCharacter_length_lt _ '~' h2) a.length_le)).trans
        (b.trans a)
    · exact a
  | conjLoop =>
    show (conjLoop lp t).lp <:+ lp
    have b := acceptCharacter_suffix lp '&'
    rw [conjLoop_eq]
    split_ifs with h1 h2
    · have hlt := acceptCharacter_length_lt lp '&' h1
      have c : (treeLiteral (acceptCharacter lp '&').2 FormTree.null).lp
          <:+ (acceptCharacter lp '&').2 := ih1 Fn.literal _ FormTree.null hlt
      exact (ih1 Fn.conjLoop _ _ (Nat.lt_of_le_of_lt c.length_le hlt)).trans (c.trans b)
    · have hlt := acceptCharacter_length_lt lp '&' h1
      exact (ih1 Fn.literal _ FormTree.null hlt).trans b
    · exact List.suffix_refl lp
  | conjunction =>
    show (treeConjunction lp t).lp <:+ lp
    have a : (treeLiteral lp t).lp <:+ lp := ih2 Fn.literal lp t (Nat.le_refl _) (by decide)
    rw [treeConjunction_eq]
    split_ifs with h1
    · exact (ih2 Fn.conjLoop _ _ a.length_le (by decide)).trans a
    · exact a
  | disjLoop =>
    show (disjLoop lp t).lp <:+ lp
    have b := acceptCharacter_suffix lp '|'
    rw [disjLoop_eq]
    split_ifs with h1 h2
    · have hlt := acceptCharacter_length_lt lp '|' h1
      have c : (treeConjunction (acceptCharacter lp '|').2 FormTree.null).lp
          <:+ (acceptCharacter lp '|').2 := ih1 Fn.conjunction _ FormTree.null hlt
      exact (ih1 Fn.disjLoop _ _ (Nat.lt_of_le_of_lt c.length_le hlt)).trans (c.trans b)
    · have hlt := acceptCharacter_length_lt lp '|' h1
      exact (ih1 Fn.conjunction _ FormTree.null hlt).trans b
    · exact List.suffix_refl lp
  | disjunction =>
    show (treeDisjunction lp t).lp <:+ lp
    have a : (treeConjunction lp t).lp <:+ lp :=
      ih2 Fn.conjunction lp t (Nat.le_refl _) (by decide)
    rw [treeDisjunction_eq]
    split_ifs with h1
    · exact (ih2 Fn.disjLoop _ _ a.length_le (by decide)).trans a
    · exact a
  | implication =>
    show (treeImplication lp t).lp <:+ lp
    have a : (treeDisjunction lp t).lp <:+ lp :=
      ih2 Fn.disjunction lp t (Nat.le_refl _) (by decide)
    have b := acceptCharacter_suffix (treeDisjunction lp t).lp '-'
    have c := acceptCharacter_suffix (acceptCharacter (treeDisjunction lp t).lp '-').2 '>'
    rw [treeImplication_eq]
    split_ifs with h1 h2 h3 h4
    · have hlt := acceptCharacter_length_lt _ '-' h2
      exact (ih1 Fn.disjunction _ FormTree.null
        (Nat.lt_of_le_of_lt c.length_le (Nat.lt_of_lt_of_le hlt a.length_le))).trans
        (c.trans (b.trans a))
    · have hlt := acceptCharacter_length_lt _ '-' h2
      exact (ih1 Fn.disjunction _ FormTree.null
        (Nat.lt_of_le_of_lt c.length_le (Nat.lt_of_lt_of_le hlt a.length_le))).trans
        (c.trans (b.trans a))
    · exact b.trans a
    · exact a
    · exact a
  | biconditional =>
    show (treeBiconditional lp t).lp <:+ lp
    have a : (treeImplication lp t).lp <:+ lp :=
      ih2 Fn.implication lp t (Nat.le_refl _) (by decide)
    have b := acceptCharacter_suffix (treeImplication lp t).lp '<'
    have c := acceptCharacter_suffix (acceptCharacter (treeImplication lp t).lp '<').2 '-'
    have d := acceptCharacter_suffix
      (acceptCharacter (acceptCharacter (treeImplication lp t).lp '<').2 '-').2 '>'
    rw [treeBiconditional_eq]
    split_ifs with h1 h2 h3 h4 h5
    · have hlt := acceptCharacter_length_lt _ '<' h2
      exact (ih1 Fn.implication _ FormTree.null
        (Nat.lt_of_le_of_lt (d.trans c).length_le
          (Nat.lt_of_lt_of_le hlt a.length_le))).trans
        (d.trans (c.trans (b.trans a)))
    · have hlt := acceptCharacter_length_lt _ '<' h2
      exact (ih1 Fn.implication _ FormTree.null
        (Nat.lt_of_le_of_lt (d.trans c).length_le
          (Nat.lt_of_lt_of_le hlt a.length_le))).trans
        (d.trans (c.trans (b.trans a)))
    · exact c.trans (b.trans a)
    · exact b.trans a
    · exact a
    · exact a

/-! ## The cursor after a failure -/

theorem treeIdentifier_fail {lp : List Token} {t : FormTree}
    (h : (treeIdentifier lp t).ok = false) : treeIdentifier lp t = ⟨false, lp, t⟩ := by
  unfold treeIdentifier at h ⊢
  split
  · simp at h
  · rfl

theorem treeAtom_noStart {lp : List Token} (h : noStart lp = true) (t : FormTree) :
    treeAtom lp t = ⟨false, lp, t⟩ := by
  cases lp with
  | nil => exact treeAtom_nil t
  | cons tok rest =>
    cases tok with
    | identifier name => simp [noStart] at h
    | symbol c =>
      simp only [noStart, Bool.and_eq_true, bne_iff_ne, ne_eq] at h
      exact treeAtom_symbol_fail h.1.1.1 h.1.1.2 h.1.2 rest t

theorem acceptCharacter_noStart {lp : List Token} (h : noStart lp = true) :
    acceptCharacter lp '~' = (false, lp) := by
  cases lp with
  | nil => rfl
  | cons tok rest =>
    cases tok with
    | identifier name => rfl
    | symbol c =>
      simp only [noStart, Bool.and_eq_true, bne_iff_ne, ne_eq] at h
      exact acceptCharacter_other h.2 rest

theorem parseLevel_noStart {lp : List Token} (h : noStart lp = true) (t : FormTree)
    (L : Level) :
    parseLevel L lp t = ⟨false, lp, t⟩ := by
  have hl : treeLiteral lp t = ⟨false, lp, t⟩ := by
    rw [treeLiteral_eq, treeAtom_noStart h, acceptCharacter_noStart h]
    simp
  have hc : treeConjunction lp t = ⟨false, lp, t⟩ := by
    rw [treeConjunction_eq, hl]
    simp
  have hd : treeDisjunction lp t = ⟨false, lp, t⟩ := by
    rw [treeDisjunction_eq, hc]
    simp
  have hi : treeImplication lp t = ⟨false, lp, t⟩ := by
    rw [treeImplication_eq, hd]
    simp
  have hb : treeBiconditional lp t = ⟨false, lp, t⟩ := by
    rw [treeBiconditional_eq, hi]
    simp
  cases L
  · exact treeAtom_noStart h t
  · exact hl
  · exact hc
  · exact hd
  · exact hi
  · exact hb

/-- C2 as stated fails: `treeAtom` on `( a` accepts `(`, parses `a`, misses `)` and
reports failure with the cursor at the end of the input, not at its original position;
`treeConjunction` on `a &` fails with both tokens consumed. -/
theorem failure_consumes_counterexample :
    treeAtom [Token.symbol '(', Token.identifier "a"] FormTree.null
        = ⟨false, [], leaf (Token.identifier "a")⟩
      ∧ (treeAtom [Token.symbol '(', Token.identifier "a"] FormTree.null).lp
        ≠ [Token.symbol '(', Token.identifier "a"]
      ∧ treeConjunction [Token.identifier "a", Token.symbol '&'] FormTree.null
        = ⟨false, [], leaf (Token.identifier "a")⟩
      ∧ (treeConjunction [Token.identifier "a", Token.symbol '&'] FormTree.null).lp
        ≠ [Token.identifier "a", Token.symbol '&'] := by
  have h1 : treeAtom [Token.symbol '(', Token.identifier "a"] FormTree.null
      = ⟨false, [], leaf (Token.identifier "a")⟩ := by
    simp [leaf, treeBiconditional_eq, treeImplication_eq, treeDisjunction_eq, disjLoop_eq,
      treeConjunction_eq, conjLoop_eq, treeLiteral_eq, treeAtom_eq, acceptCharacter,
      treeIdentifier, newFormTreeNode]
  have h2 : treeConjunction [Token.identifier "a", Token.symbol '&'] FormTree.null
      = ⟨false, [], leaf (Token.identifier "a")⟩ := by
    simp [leaf, treeBiconditional_eq, treeImplication_eq, treeDisjunction_eq, disjLoop_eq,
      treeConjunction_eq, conjLoop_eq, treeLiteral_eq, treeAtom_eq, acceptCharacter,
      treeIdentifier, newFormTreeNode]
  refine ⟨h1, ?_, h2, ?_⟩
  · rw [h1]
    simp
  · rw [h2]
    simp

/-- C2 (amended). When a grammar function reports failure the remaining token sequence
is a suffix of the input: the cursor never moves backwards, but the tokens accepted
before the point of failure are not given back. It equals the input for `treeIdentifier`,
and for every grammar function when the input is empty or begins with a symbol other
than `T`, `F`, `(` and `~`; in that case the function fails and leaves the output tree
unchanged as well. -/
theorem failure_cursor (L : Level) (lp : List Token) (t : FormTree) :
    ((treeIdentifier lp t).ok = false → (treeIdentifier lp t).lp = lp)
      ∧ ((parseLevel L lp t).ok = false → (parseLevel L lp t).lp <:+ lp)
      ∧ (noStart lp = true → parseLevel L lp t = ⟨false, lp, t⟩) := by
  refine ⟨?_, ?_, ?_⟩
  · intro h
    rw [treeIdentifier_fail h]
  · intro _
    rw [parseLevel_eq_run]
    exact run_suffix L.fn lp t
  · intro h
    exact parseLevel_noStart h t L

/-- Witness for C2: a failure of `treeIdentifier`, the failure of `treeAtom` on `( a`,
and the failure of `treeBiconditional` on `) a`. -/
theorem failure_cursor_witness :
    (treeIdentifier [Token.symbol 'T'] FormTree.null).lp = [Token.symbol 'T']
      ∧ (parseLevel Level.atom [Token.symbol '(', Token.identifier "a"] FormTree.null).lp
          <:+ [Token.symbol '(', Token.identifier "a"]
      ∧ parseLevel Level.biconditional [Token.symbol ')', Token.identifier "a"]
          FormTree.null
        = ⟨false, [Token.symbol ')', Token.identifier "a"], FormTree.null⟩ :=
  ⟨(failure_cursor Level.atom [Token.symbol 'T'] FormTree.null).1 rfl,
   (failure_cursor Level.atom [Token.symbol '(', Token.identifier "a"] FormTree.null).2.1
      (by simp [parseLevel, treeBiconditional_eq, treeImplication_eq, treeDisjunction_eq,
            disjLoop_eq, treeConjunction_eq, conjLoop_eq, treeLiteral_eq, treeAtom_eq,
            acceptCharacter, treeIdentifier, newFormTreeNode]),
   (failure_cursor Level.biconditional [Token.symbol ')', Token.identifier "a"]
      FormTree.null).2.2
      (by decide)⟩

/-! ## Soundness and the dangling operator -/

theorem derives_getLast {L : Level} {w : List Token} {t : FormTree} (h : Derives L w t) :
    ∃ tok, w.getLast? = some tok ∧ endsFormula tok = true := by
  induction h with
  | constT => exact ⟨_, rfl, by decide⟩
  | constF => exact ⟨_, rfl, by decide⟩
  | ident name => exact ⟨_, rfl, rfl⟩
  | paren _ _ => exact ⟨Token.symbol ')', by simp [List.getLast?_cons], by decide⟩
  | litAtom _ ih => exact ih
  | litNeg _ ih =>
    obtain ⟨tok, h1, h2⟩ := ih
    exact ⟨tok, by simp [List.getLast?_cons, h1], h2⟩
  | conjOne _ ih => exact ih
  | conjMore _ _ _ ih2 =>
    obtain ⟨tok, h1, h2⟩ := ih2
    exact ⟨tok, by simp [List.getLast?_append, List.getLast?_cons, h1], h2⟩
  | disjOne _ ih => exact ih
  | disjMore _ _ _ ih2 =>
    obtain ⟨tok, h1, h2⟩ := ih2
    exact ⟨tok, by simp [List.getLast?_append, List.getLast?_cons, h1], h2⟩
  | implOne _ ih => exact ih
  | implArrow _ _ _ ih2 =>
    obtain ⟨tok, h1, h2⟩ := ih2
    exact ⟨tok, by simp [List.getLast?_append, List.getLast?_cons, h1], h2⟩
  | bicOne _ ih => exact ih
  | bicArrow _ _ _ ih2 =>
    obtain ⟨tok, h1, h2⟩ := ih2
    exact ⟨tok, by simp [List.getLast?_append, List.getLast?_cons, h1], h2⟩

theorem derives_count_paren {L : Level} {w : List Token} {t : FormTree}
    (h : Derives L w t) :
    w.count (Token.symbol '(') = w.count (Token.symbol ')') := by
  induction h with
  | constT => decide
  | constF => decide
  | ident name => simp [List.count_cons]
  | paren _ ih => simp [List.count_cons, List.count_append, ih]
  | litAtom _ ih => exact ih
  | litNeg _ ih => simpa [List.count_cons] using ih
  | conjOne _ ih => exact ih
  | conjMore _ _ ih1 ih2 => simp [List.count_cons, List.count_append, ih1, ih2]
  | disjOne _ ih => exact ih
  | disjMore _ _ ih1 ih2 => simp [List.count_cons, List.count_append, ih1, ih2]
  | implOne _ ih => exact ih
  | implArrow _ _ ih1 ih2 => simp [List.count_cons, List.count_append, ih1, ih2]
  | bicOne _ ih => exact ih
  | bicArrow _ _ ih1 ih2 => simp [List.count_cons, List.count_append, ih1, ih2]

/-- C3 fails on the code. `treeImplication` on `a -` accepts the `-`, does not find `>`
and still reports success with both tokens consumed, although `a -` is derivable from no
production. `treeLiteral` on `( a ~ b` reports success with the tree of `~ b` and all
four tokens consumed, although they are not a literal: the failed `treeAtom` left the
cursor behind `( a`. -/
theorem soundness_fails :
    treeImplication [Token.identifier "a", Token.symbol '-'] FormTree.null
        = ⟨true, [], leaf (Token.identifier "a")⟩
      ∧ (∀ L t, ¬ Derives L [Token.identifier "a", Token.symbol '-'] t)
      ∧ treeLiteral
          [Token.symbol '(', Token.identifier "a", Token.symbol '~', Token.identifier "b"]
          FormTree.null
        = ⟨true, [],
            FormTree.node (Token.symbol '~') (leaf (Token.identifier "b")) FormTree.null⟩
      ∧ (∀ L t, ¬ Derives L
          [Token.symbol '(', Token.identifier "a", Token.symbol '~', Token.identifier "b"]
          t) := by
  refine ⟨?_, ?_, ?_, ?_⟩
  · simp [leaf, treeImplication_eq, treeDisjunction_eq, disjLoop_eq,
      treeConjunction_eq, conjLoop_eq, treeLiteral_eq, treeAtom_eq, acceptCharacter,
      treeIdentifier, newFormTreeNode]
  · intro L t h
    obtain ⟨tok, h1, h2⟩ := derives_getLast h
    simp only [List.getLast?, List.getLast, Option.some.injEq] at h1
    subst h1
    simp [endsFormula, isTerminal] at h2
  · simp [leaf, treeBiconditional_eq, treeImplication_eq, treeDisjunction_eq, disjLoop_eq,
      treeConjunction_eq, conjLoop_eq, treeLiteral_eq, treeAtom_eq, acceptCharacter,
      treeIdentifier, newFormTreeNode]
  · intro L t h
    have h1 := derives_count_paren h
    simp [List.count_cons] at h1

/-! ## Scanning the printed text -/

theorem scanFrom_flush {cs : List Char} (h : boundary cs = true) (acc : List Char) :
    scanFrom cs acc = flushName acc ++ scanFrom cs [] := by
  cases cs with
  | nil => simp [scanFrom, flushName]
  | cons c cs =>
    have hn : isNameChar c = false := by simpa [boundary] using h
    by_cases hw : c.isWhitespace = true
    · simp [scanFrom, hn, hw, flushName]
    · simp [scanFrom, hn, hw, flushName]

theorem scanFrom_name (cs1 : List Char) :
    (∀ c ∈ cs1, isNameChar c = true) →
      ∀ (acc cs : List Char), scanFrom (cs1 ++ cs) acc = scanFrom cs (acc ++ cs1) := by
  induction cs1 with
  | nil =>
    intro _ acc cs
    simp
  | cons c cs1 ih =>
    intro h acc cs
    have hc := h c (by simp)
    have ih2 := ih (fun d hd => h d (by simp [hd])) (acc ++ [c]) cs
    simp only [List.cons_append, scanFrom, hc, if_true]
    show scanFrom (cs1 ++ cs) (acc ++ [c]) = scanFrom cs (acc ++ c :: cs1)
    rw [ih2]
    simp

theorem scanFrom_identifier {name : String} (h : nameOK name = true) {cs : List Char}
    (hb : boundary cs = true) :
    scanFrom (name.data ++ cs) [] = Token.identifier name :: scanFrom cs [] := by
  simp only [nameOK, Bool.and_eq_true, Bool.not_eq_true', List.all_eq_true] at h
  obtain ⟨h1, h2⟩ := h
  rw [scanFrom_name name.data h2 [] cs, scanFrom_flush hb]
  cases hd : name.data with
  | nil => simp [hd] at h1
  | cons c rest =>
    have : name = String.mk (c :: rest) := by
      rw [← hd]
    simp [flushName, this]

theorem tokensOK_name {toks : List Token} (hs : tokensOK toks = true) {name : String}
    (h : Token.identifier name ∈ toks) : nameOK name = true := by
  simp only [tokensOK, List.all_eq_true] at hs
  exact hs _ h

theorem scanFrom_symbol {c : Char} (h : isNameChar c = false)
    (hw : c.isWhitespace = false) (cs : List Char) :
    scanFrom (c :: cs) [] = Token.symbol c :: scanFrom cs [] := by
  simp [scanFrom, h, hw, flushName]

theorem scanFrom_space (cs : List Char) : scanFrom (' ' :: cs) [] = scanFrom cs [] := by
  have h : isNameChar ' ' = false := by decide
  have hw : (' ' : Char).isWhitespace = true := by decide
  simp [scanFrom, h, hw, flushName]

theorem boundary_cons {c : Char} (h : isNameChar c = false) (cs : List Char) :
    boundary (c :: cs) = true := by
  simp [boundary, h]

/-- Scanning the text printed for a built tree gives back its token sequence. -/
theorem scan_built {toks : List Token} {t : FormTree} (h : Built toks t)
    (hs : tokensOK toks = true) :
    ∀ cs : List Char, boundary cs = true →
      scanFrom ((printTree t).data ++ cs) [] = treeTokens t ++ scanFrom cs [] := by
  induction h with
  | constT =>
    intro cs _
    simp [leaf, printTree, treeTokens, scanFrom_symbol (show isNameChar 'T' = false by decide)
      (show ('T' : Char).isWhitespace = false by decide)]
  | constF =>
    intro cs _
    simp [leaf, printTree, treeTokens, scanFrom_symbol (show isNameChar 'F' = false by decide)
      (show ('F' : Char).isWhitespace = false by decide)]
  | ident name hmem =>
    intro cs hb
    simp [leaf, printTree, treeTokens, scanFrom_identifier (tokensOK_name hs hmem) hb]
  | @neg l _ ih =>
    intro cs _
    have e : (printTree (FormTree.node (Token.symbol '~') l FormTree.null)).data ++ cs
        = '(' :: '~' :: ((printTree l).data ++ ')' :: cs) := by
      simp [printTree]
    rw [e, scanFrom_symbol (by decide) (by decide), scanFrom_symbol (by decide) (by decide),
      ih _ (boundary_cons (by decide) _), scanFrom_symbol (by decide) (by decide)]
    simp [treeTokens]
  | @bin c l r hc _ _ ihl ihr =>
    intro cs _
    rcases hc with hc | hc | hc | hc
    · subst hc
      have e : (printTree (FormTree.node (Token.symbol '&') l r)).data ++ cs
          = '(' :: ((printTree l).data
              ++ ' ' :: '&' :: ' ' :: ((printTree r).data ++ ')' :: cs)) := by
        simp [printTree]
      rw [e, scanFrom_symbol (by decide) (by decide), ihl _ (boundary_cons (by decide) _), scanFrom_space,
        scanFrom_symbol (by decide) (by decide), scanFrom_space, ihr _ (boundary_cons (by decide) _),
        scanFrom_symbol (by decide) (by decide)]
      simp [treeTokens]
    · subst hc
      have e : (printTree (FormTree.node (Token.symbol '|') l r)).data ++ cs
          = '(' :: ((printTree l).data
              ++ ' ' :: '|' :: ' ' :: ((printTree r).data ++ ')' :: cs)) := by
        simp [printTree]
      rw [e, scanFrom_symbol (by decide) (by decide), ihl _ (boundary_cons (by decide) _), scanFrom_space,
        scanFrom_symbol (by decide) (by decide), scanFrom_space, ihr _ (boundary_cons (by decide) _),
        scanFrom_symbol (by decide) (by decide)]
      simp [treeTokens]
    · subst hc
      have e : (printTree (FormTree.node (Token.symbol '-') l r)).data ++ cs
          = '(' :: ((printTree l).data
              ++ ' ' :: '-' :: '>' :: ' ' :: ((printTree r).data ++ ')' :: cs)) := by
        simp [printTree]
      rw [e, scanFrom_symbol (by decide) (by decide), ihl _ (boundary_cons (by decide) _), scanFrom_space,
        scanFrom_symbol (by decide) (by decide), scanFrom_symbol (by decide) (by decide),
        scanFrom_space, ihr _ (boundary_cons (by decide) _), scanFrom_symbol (by decide) (by decide)]
      simp [treeTokens]
    · subst hc
      have e : (printTree (FormTree.node (Token.symbol '<') l r)).data ++ cs
          = '(' :: ((printTree l).data
              ++ ' ' :: '<' :: '-' :: '>' :: ' ' :: ((printTree r).data ++ ')' :: cs)) := by
        simp [printTree]
      rw [e, scanFrom_symbol (by decide) (by decide), ihl _ (boundary_cons (by decide) _), scanFrom_space,
        scanFrom_symbol (by decide) (by decide), scanFrom_symbol (by decide) (by decide),
        scanFrom_symbol (by decide) (by decide), scanFrom_space,
        ihr _ (boundary_cons (by decide) _), scanFrom_symbol (by decide) (by decide)]
      simp [treeTokens]

/-- The token sequence of a built tree is an atom of the grammar with that tree. -/
theorem derives_built {toks : List Token} {t : FormTree} (h : Built toks t) :
    Derives Level.atom (treeTokens t) t := by
  have up : ∀ {w : List Token} {u : FormTree}, Derives Level.atom w u →
      Derives Level.disjunction w u :=
    fun d => Derives.disjOne (Derives.conjOne (Derives.litAtom d))
  induction h with
  | constT => exact Derives.constT
  | constF => exact Derives.constF
  | ident name _ => exact Derives.ident name
  | @neg l _ ih =>
    have d := Derives.paren (Derives.bicOne (Derives.implOne (Derives.disjOne
      (Derives.conjOne (Derives.litNeg ih)))))
    simpa [treeTokens] using d
  | @bin c l r hc _ _ ihl ihr =>
    rcases hc with hc | hc | hc | hc
    · subst hc
      have d := Derives.paren (Derives.bicOne (Derives.implOne (Derives.disjOne
        (Derives.conjMore (Derives.conjOne (Derives.litAtom ihl)) (Derives.litAtom ihr)))))
      simpa [treeTokens] using d
    · subst hc
      have d := Derives.paren (Derives.bicOne (Derives.implOne
        (Derives.disjMore (Derives.disjOne (Derives.conjOne (Derives.litAtom ihl)))
          (Derives.conjOne (Derives.litAtom ihr)))))
      simpa [treeTokens] using d
    · subst hc
      have d := Derives.paren (Derives.bicOne (Derives.implArrow (up ihl) (up ihr)))
      simpa [treeTokens] using d
    · subst hc
      have d := Derives.paren (Derives.bicArrow (Derives.implOne (up ihl))
        (Derives.implOne (up ihr)))
      simpa [treeTokens] using d

/-! ## The trees the parser returns -/

theorem treeIdentifier_ok {lp : List Token} {t : FormTree}
    (h : (treeIdentifier lp t).ok = true) :
    ∃ name, Token.identifier name ∈ lp
      ∧ (treeIdentifier lp t).t = leaf (Token.identifier name) := by
  unfold treeIdentifier at h ⊢
  split
  · rename_i name next
    exact ⟨name, by simp, rfl⟩
  · simp at h

theorem subset_of_suffix {a b toks : List Token} (h : a <:+ b) (hb : b ⊆ toks) :
    a ⊆ toks :=
  fun _ hx => hb (h.subset hx)

/-- A successful call returns a tree built from the tokens of the input (a loop: when
the tree it starts from is built from them). -/
theorem run_built : ∀ f lp t, ∀ toks : List Token, lp ⊆ toks → (run f lp t).ok = true →
    (f.isLoop = true → Built toks t) → Built toks (run f lp t).t := by
  apply parser_induction
  intro f lp t ih1 ih2 toks hsub hok hloop
  cases f with
  | atom =>
    change (treeAtom lp t).ok = true at hok
    change Built toks (treeAtom lp t).t
    have e := treeAtom_eq lp t
    split_ifs at e with h1 h2 h3 h4 h5 h6
    · rw [e]
      exact Built.constT
    · rw [e]
      exact Built.constF
    · rw [e]
      obtain ⟨name, hmem, ht⟩ := treeIdentifier_ok h3
      show Built toks (treeIdentifier lp t).t
      rw [ht]
      exact Built.ident name (hsub hmem)
    · rw [e]
      exact ih1 Fn.biconditional _ t (acceptCharacter_length_lt lp '(' h4) toks
        (subset_of_suffix (acceptCharacter_suffix lp '(') hsub) h5 (fun h => by cases h)
    · rw [e] at hok
      simp at hok
    · rw [e] at hok
      simp at hok
    · rw [e] at hok
      simp at hok
  | literal =>
    change (treeLiteral lp t).ok = true at hok
    change Built toks (treeLiteral lp t).t
    have a : (treeAtom lp t).lp <:+ lp := run_suffix Fn.atom lp t
    have b := acceptCharacter_suffix (treeAtom lp t).lp '~'
    have e := treeLiteral_eq lp t
    split_ifs at e with h1 h2 h3
    · rw [e]
      exact ih2 Fn.atom lp t (Nat.le_refl _) (by decide) toks hsub h1 (fun h => by cases h)
    · rw [e]
      exact Built.neg (ih1 Fn.atom _ FormTree.null
        (Nat.lt_of_lt_of_le (acceptCharacter_length_lt _ '~' h2) a.length_le) toks
        (subset_of_suffix (b.trans a) hsub) h3 (fun h => by cases h))
    · rw [e] at hok
      simp at hok
    · rw [e] at hok
      simp at hok
  | conjLoop =>
    change (conjLoop lp t).ok = true at hok
    change Built toks (conjLoop lp t).t
    have b := acceptCharacter_suffix lp '&'
    have c : (treeLiteral (acceptCharacter lp '&').2 FormTree.null).lp
        <:+ (acceptCharacter lp '&').2 := run_suffix Fn.literal _ _
    have e := conjLoop_eq lp t
    split_ifs at e with h1 h2
    · rw [e] at hok ⊢
      have hlt := acceptCharacter_length_lt lp '&' h1
      exact ih1 Fn.conjLoop _ _ (Nat.lt_of_le_of_lt c.length_le hlt) toks
        (subset_of_suffix (c.trans b) hsub) hok
        (fun _ => Built.bin '&' (Or.inl rfl) (hloop rfl)
          (ih1 Fn.literal _ FormTree.null hlt toks (subset_of_suffix b hsub) h2
            (fun h => by cases h)))
    · rw [e] at hok
      simp at hok
    · rw [e]
      exact hloop rfl
  | conjunction =>
    change (treeConjunction lp t).ok = true at hok
    change Built toks (treeConjunction lp t).t
    have a : (treeLiteral lp t).lp <:+ lp := run_suffix Fn.literal lp t
    have e := treeConjunction_eq lp t
    split_ifs at e with h1
    · rw [e] at hok ⊢
      exact ih2 Fn.conjLoop _ _ a.length_le (by decide) toks (subset_of_suffix a hsub) hok
        (fun _ => ih2 Fn.literal lp t (Nat.le_refl _) (by decide) toks hsub h1
          (fun h => by cases h))
    · rw [e] at hok
      simp at hok
  | disjLoop =>
    change (disjLoop lp t).ok = true at hok
    change Built toks (disjLoop lp t).t
    have b := acceptCharacter_suffix lp '|'
    have c : (treeConjunction (acceptCharacter lp '|').2 FormTree.null).lp
        <:+ (acceptCharacter lp '|').2 := run_suffix Fn.conjunction _ _
    have e := disjLoop_eq lp t
    split_ifs at e with h1 h2
    · rw [e] at hok ⊢
      have hlt := acceptCharacter_length_lt lp '|' h1
      exact ih1 Fn.disjLoop _ _ (Nat.lt_of_le_of_lt c.length_le hlt) toks
        (subset_of_suffix (c.trans b) hsub) hok
        (fun _ => Built.bin '|' (Or.inr (Or.inl rfl)) (hloop rfl)
          (ih1 Fn.conjunction _ FormTree.null hlt toks (subset_of_suffix b hsub) h2
            (fun h => by cases h)))
    · rw [e] at hok
      simp at hok
    · rw [e]
      exact hloop rfl
  | disjunction =>
    change (treeDisjunction lp t).ok = true at hok
    change Built toks (treeDisjunction lp t).t
    have a : (treeConjunction lp t).lp <:+ lp := run_suffix Fn.conjunction lp t
    have e := treeDisjunction_eq lp t
    split_ifs at e with h1
    · rw [e] at hok ⊢
      exact ih2 Fn.disjLoop _ _ a.length_le (by decide) toks (subset_of_suffix a hsub) hok
        (fun _ => ih2 Fn.conjunction lp t (Nat.le_refl _) (by decide) toks hsub h1
          (fun h => by cases h))
    · rw [e] at hok
      simp at hok
  | implication =>
    change (treeImplication lp t).ok = true at hok
    change Built toks (treeImplication lp t).t
    have a : (treeDisjunction lp t).lp <:+ lp := run_suffix Fn.disjunction lp t
    have b := acceptCharacter_suffix (treeDisjunction lp t).lp '-'
    have c := acceptCharacter_suffix (acceptCharacter (treeDisjunction lp t).lp '-').2 '>'
    have e := treeImplication_eq lp t
    split_ifs at e with h1 h2 h3 h4
    · rw [e]
      have hlt := acceptCharacter_length_lt _ '-' h2
      exact Built.bin '-' (Or.inr (Or.inr (Or.inl rfl)))
        (ih2 Fn.disjunction lp t (Nat.le_refl _) (by decide) toks hsub h1
          (fun h => by cases h))
        (ih1 Fn.disjunction _ FormTree.null
          (Nat.lt_of_le_of_lt c.length_le (Nat.lt_of_lt_of_le hlt a.length_le)) toks
          (subset_of_suffix (c.trans (b.trans a)) hsub) h4 (fun h => by cases h))
    · rw [e] at hok
      simp at hok
    · rw [e]
      exact ih2 Fn.disjunction lp t (Nat.le_refl _) (by decide) toks hsub h1
        (fun h => by cases h)
    · rw [e]
      exact ih2 Fn.disjunction lp t (Nat.le_refl _) (by decide) toks hsub h1
        (fun h => by cases h)
    · rw [e] at hok
      simp at hok
  | biconditional =>
    change (treeBiconditional lp t).ok = true at hok
    change Built toks (treeBiconditional lp t).t
    have a : (treeImplication lp t).lp <:+ lp := run_suffix Fn.implication lp t
    have b := acceptCharacter_suffix (treeImplication lp t).lp '<'
    have c := acceptCharacter_suffix (acceptCharacter (treeImplication lp t).lp '<').2 '-'
    have d := acceptCharacter_suffix
      (acceptCharacter (acceptCharacter (treeImplication lp t).lp '<').2 '-').2 '>'
    have e := treeBiconditional_eq lp t
    have hfirst : (treeImplication lp t).ok = true → Built toks (treeImplication lp t).t :=
      fun h1 => ih2 Fn.implication lp t (Nat.le_refl _) (by decide) toks hsub h1
        (fun h => by cases h)
    split_ifs at e with h1 h2 h3 h4 h5
    · rw [e]
      have hlt := acceptCharacter_length_lt _ '<' h2
      exact Built.bin '<' (Or.inr (Or.inr (Or.inr rfl))) (hfirst h1)
        (ih1 Fn.implication _ FormTree.null
          (Nat.lt_of_le_of_lt (d.trans c).length_le (Nat.lt_of_lt_of_le hlt a.length_le))
          toks (subset_of_suffix (d.trans (c.trans (b.trans a))) hsub) h5
          (fun h => by cases h))
    · rw [e] at hok
      simp at hok
    · rw [e]
      exact hfirst h1
    · rw [e]
      exact hfirst h1
    · rw [e]
      exact hfirst h1
    · rw [e] at hok
      simp at hok

/-! ## Printing and parsing again -/

theorem flushName_tokensOK {acc : List Char} (h : ∀ c ∈ acc, isNameChar c = true) :
    tokensOK (flushName acc) = true := by
  cases acc with
  | nil => rfl
  | cons c cs =>
    simp only [flushName, tokensOK, List.all_cons, List.all_nil, Bool.and_true, nameOK,
      List.isEmpty_cons, Bool.not_false, Bool.true_and, Bool.and_eq_true, List.all_eq_true]
    exact ⟨h c (by simp), fun d hd => h d (by simp [hd])⟩

theorem tokensOK_append (a b : List Token) :
    tokensOK (a ++ b) = (tokensOK a && tokensOK b) := by
  simp [tokensOK, List.all_append]

theorem scanFrom_tokensOK (cs : List Char) :
    ∀ acc : List Char, (∀ c ∈ acc, isNameChar c = true) →
      tokensOK (scanFrom cs acc) = true := by
  induction cs with
  | nil =>
    intro acc h
    exact flushName_tokensOK h
  | cons c cs ih =>
    intro acc h
    have h0 := ih [] (fun d hd => by simp at hd)
    by_cases hn : isNameChar c = true
    · simp only [scanFrom, hn, if_true]
      apply ih
      intro d hd
      rcases List.mem_append.mp hd with hd | hd
      · exact h d hd
      · simp only [List.mem_singleton] at hd
        rw [hd]
        exact hn
    · by_cases hw : c.isWhitespace = true
      · simp [scanFrom, hn, hw, tokensOK_append, flushName_tokensOK h, h0]
      · have hsym : tokensOK (Token.symbol c :: scanFrom cs []) = true := by
          simpa [tokensOK] using h0
        simp [scanFrom, hn, hw, tokensOK_append, flushName_tokensOK h, hsym]

/-- The token sequence of a built tree is a tokenisation of the text printed for it. -/
theorem tokenises_built {toks : List Token} {t : FormTree} (h : Built toks t) :
    ∀ (cs : List Char) (ts : List Token), Tokenises cs ts →
      Tokenises ((printTree t).data ++ cs) (treeTokens t ++ ts) := by
  induction h with
  | constT =>
    intro cs ts h
    exact Tokenises.symbol 'T' (by decide) h
  | constF =>
    intro cs ts h
    exact Tokenises.symbol 'F' (by decide) h
  | ident name _ =>
    intro cs ts h
    exact Tokenises.identifier name h
  | @neg l _ ih =>
    intro cs ts h
    have e : (printTree (FormTree.node (Token.symbol '~') l FormTree.null)).data ++ cs
        = '(' :: '~' :: ((printTree l).data ++ ')' :: cs) := by
      simp [printTree]
    have e2 : treeTokens (FormTree.node (Token.symbol '~') l FormTree.null) ++ ts
        = Token.symbol '(' :: Token.symbol '~' :: (treeTokens l ++ Token.symbol ')' :: ts) := by
      simp [treeTokens]
    rw [e, e2]
    exact Tokenises.symbol '(' (by decide) (Tokenises.symbol '~' (by decide)
      (ih _ _ (Tokenises.symbol ')' (by decide) h)))
  | @bin c l r hc _ _ ihl ihr =>
    intro cs ts h
    have hclose := Tokenises.symbol ')' (by decide) h
    rcases hc with hc | hc | hc | hc
    · subst hc
      have e : (printTree (FormTree.node (Token.symbol '&') l r)).data ++ cs
          = '(' :: ((printTree l).data
              ++ ' ' :: '&' :: ' ' :: ((printTree r).data ++ ')' :: cs)) := by
        simp [printTree]
      have e2 : treeTokens (FormTree.node (Token.symbol '&') l r) ++ ts
          = Token.symbol '(' :: (treeTokens l
              ++ Token.symbol '&' :: (treeTokens r ++ Token.symbol ')' :: ts)) := by
        simp [treeTokens]
      rw [e, e2]
      exact Tokenises.symbol '(' (by decide) (ihl _ _ (Tokenises.space
        (Tokenises.symbol '&' (by decide) (Tokenises.space (ihr _ _ hclose)))))
    · subst hc
      have e : (printTree (FormTree.node (Token.symbol '|') l r)).data ++ cs
          = '(' :: ((printTree l).data
              ++ ' ' :: '|' :: ' ' :: ((printTree r).data ++ ')' :: cs)) := by
        simp [printTree]
      have e2 : treeTokens (FormTree.node (Token.symbol '|') l r) ++ ts
          = Token.symbol '(' :: (treeTokens l
              ++ Token.symbol '|' :: (treeTokens r ++ Token.symbol ')' :: ts)) := by
        simp [treeTokens]
      rw [e, e2]
      exact Tokenises.symbol '(' (by decide) (ihl _ _ (Tokenises.space
        (Tokenises.symbol '|' (by decide) (Tokenises.space (ihr _ _ hclose)))))
    · subst hc
      have e : (printTree (FormTree.node (Token.symbol '-') l r)).data ++ cs
          = '(' :: ((printTree l).data
              ++ ' ' :: '-' :: '>' :: ' ' :: ((printTree r).data ++ ')' :: cs)) := by
        simp [printTree]
      have e2 : treeTokens (FormTree.node (Token.symbol '-') l r) ++ ts
          = Token.symbol '(' :: (treeTokens l
              ++ Token.symbol '-' :: Token.symbol '>'
                :: (treeTokens r ++ Token.symbol ')' :: ts)) := by
        simp [treeTokens]
      rw [e, e2]
      exact Tokenises.symbol '(' (by decide) (ihl _ _ (Tokenises.space
        (Tokenises.symbol '-' (by decide) (Tokenises.symbol '>' (by decide)
          (Tokenises.space (ihr _ _ hclose))))))
    · subst hc
      have e : (printTree (FormTree.node (Token.symbol '<') l r)).data ++ cs
          = '(' :: ((printTree l).data
              ++ ' ' :: '<' :: '-' :: '>' :: ' ' :: ((printTree r).data ++ ')' :: cs)) := by
        simp [printTree]
      have e2 : treeTokens (FormTree.node (Token.symbol '<') l r) ++ ts
          = Token.symbol '(' :: (treeTokens l
              ++ Token.symbol '<' :: Token.symbol '-' :: Token.symbol '>'
                :: (treeTokens r ++ Token.symbol ')' :: ts)) := by
        simp [treeTokens]
      rw [e, e2]
      exact Tokenises.symbol '(' (by decide) (ihl _ _ (Tokenises.space
        (Tokenises.symbol '<' (by decide) (Tokenises.symbol '-' (by decide)
          (Tokenises.symbol '>' (by decide) (Tokenises.space (ihr _ _ hclose)))))))

/-- C5. Round trip: for every token sequence `s` on which `treeBiconditional` succeeds
with tree `t`, the text `printTree` writes for `t` is tokenised (each of
`( ) ~ & | - > < T F` as a Symbol token, each identifier name as an Identifier token,
spaces dropped) by `treeTokens t`, and parsing that with `treeBiconditional` succeeds,
consumes every token and returns `t`; so printing the second tree gives the same text.
When the identifier names of `s` are names the scanner produces, which holds for every
`s` that the scanner produced from a text, the scanner reads exactly these tokens from
the printed text. -/
theorem print_parse_roundtrip (s : List Token) (t0 t1 : FormTree)
    (hok : (treeBiconditional s t0).ok = true) :
    Tokenises (printTree (treeBiconditional s t0).t).data
        (treeTokens (treeBiconditional s t0).t)
      ∧ treeBiconditional (treeTokens (treeBiconditional s t0).t) t1
        = ⟨true, [], (treeBiconditional s t0).t⟩
      ∧ printTree (treeBiconditional (treeTokens (treeBiconditional s t0).t) t1).t
        = printTree (treeBiconditional s t0).t
      ∧ (tokensOK s = true →
          scanText (printTree (treeBiconditional s t0).t)
            = treeTokens (treeBiconditional s t0).t)
      ∧ (∀ text : String, s = scanText text → tokensOK s = true) := by
  have hb : Built s (treeBiconditional s t0).t :=
    run_built Fn.biconditional s t0 s (fun _ h => h) hok (fun h => by cases h)
  have hd : Derives Level.biconditional (treeTokens (treeBiconditional s t0).t)
      (treeBiconditional s t0).t :=
    Derives.bicOne (Derives.implOne (Derives.disjOne (Derives.conjOne
      (Derives.litAtom (derives_built hb)))))
  have hp := derives_completeAt hd [] t1 (by simp) (by simp) (by simp) (by simp)
  rw [List.append_nil] at hp
  refine ⟨?_, hp, ?_, ?_, ?_⟩
  · have h := tokenises_built hb [] [] Tokenises.done
    simpa using h
  · rw [hp]
  · intro hs
    have h := scan_built hb hs [] rfl
    simpa [scanText, scanFrom, flushName] using h
  · intro text h
    rw [h]
    exact scanFrom_tokensOK text.data [] (fun d hd => by simp at hd)

/-- Witness for C5: the tokens the scanner reads from `~p & q`. -/
theorem print_parse_roundtrip_witness :
    treeBiconditional
        (treeTokens (treeBiconditional (scanText "~p & q") FormTree.null).t) FormTree.null
      = ⟨true, [], (treeBiconditional (scanText "~p & q") FormTree.null).t⟩
    ∧ scanText (printTree (treeBiconditional (scanText "~p & q") FormTree.null).t)
      = treeTokens (treeBiconditional (scanText "~p & q") FormTree.null).t :=
  ⟨(print_parse_roundtrip (scanText "~p & q") FormTree.null FormTree.null
      (by
        have h : scanText "~p & q"
            = [Token.symbol '~', Token.identifier "p", Token.symbol '&',
                Token.identifier "q"] := by decide
        rw [h]
        simp [treeBiconditional_eq, treeImplication_eq, treeDisjunction_eq, disjLoop_eq,
          treeConjunction_eq, conjLoop_eq, treeLiteral_eq, treeAtom_eq, acceptCharacter,
          treeIdentifier, newFormTreeNode])).2.1,
   (print_parse_roundtrip (scanText "~p & q") FormTree.null FormTree.null
      (by
        have h : scanText "~p & q"
            = [Token.symbol '~', Token.identifier "p", Token.symbol '&',
                Token.identifier "q"] := by decide
        rw [h]
        simp [treeBiconditional_eq, treeImplication_eq, treeDisjunction_eq, disjLoop_eq,
          treeConjunction_eq, conjLoop_eq, treeLiteral_eq, treeAtom_eq, acceptCharacter,
          treeIdentifier, newFormTreeNode])).2.2.2.1 (by decide)⟩

/-! ## Committed operators, parentheses and negation -/

theorem conjReach_loop {lp0 lp : List Token} {t0 t : FormTree}
    (h : ConjReach lp0 t0 lp t) : treeConjunction lp0 t0 = conjLoop lp t := by
  induction h with
  | first h1 =>
    rw [treeConjunction_eq, if_pos h1]
  | next _ h1 h2 ih =>
    rw [ih, conjLoop_eq, if_pos h1, if_pos h2]

theorem disjReach_loop {lp0 lp : List Token} {t0 t : FormTree}
    (h : DisjReach lp0 t0 lp t) : treeDisjunction lp0 t0 = disjLoop lp t := by
  induction h with
  | first h1 =>
    rw [treeDisjunction_eq, if_pos h1]
  | next _ h1 h2 ih =>
    rw [ih, disjLoop_eq, if_pos h1, if_pos h2]

/-- C11. A committed operator with a missing operand is a hard failure: when
`treeConjunction` has matched one or more operands, accepts `&` and `treeLiteral` fails
on what follows, `treeConjunction` reports failure; the same for `treeDisjunction` after
`|` when `treeConjunction` fails, for `treeImplication` after `- >` when
`treeDisjunction` fails and for `treeBiconditional` after `< - >` when `treeImplication`
fails. In particular `a &` and `a & b &` fail. -/
theorem committed_operator_fails (lp0 lp lp2 : List Token) (t0 t t1 : FormTree) :
    (ConjReach lp0 t0 lp t → (acceptCharacter lp '&').1 = true →
        (treeLiteral (acceptCharacter lp '&').2 FormTree.null).ok = false →
        (treeConjunction lp0 t0).ok = false)
      ∧ (DisjReach lp0 t0 lp t → (acceptCharacter lp '|').1 = true →
        (treeConjunction (acceptCharacter lp '|').2 FormTree.null).ok = false →
        (treeDisjunction lp0 t0).ok = false)
      ∧ (treeDisjunction lp0 t0 = ⟨true, Token.symbol '-' :: Token.symbol '>' :: lp2, t1⟩ →
        (treeDisjunction lp2 FormTree.null).ok = false →
        (treeImplication lp0 t0).ok = false)
      ∧ (treeImplication lp0 t0
          = ⟨true, Token.symbol '<' :: Token.symbol '-' :: Token.symbol '>' :: lp2, t1⟩ →
        (treeImplication lp2 FormTree.null).ok = false →
        (treeBiconditional lp0 t0).ok = false)
      ∧ (treeConjunction [Token.identifier "a", Token.symbol '&'] t0).ok = false
      ∧ (treeConjunction
          [Token.identifier "a", Token.symbol '&', Token.identifier "b", Token.symbol '&']
          t0).ok = false := by
  refine ⟨?_, ?_, ?_, ?_, ?_, ?_⟩
  · intro h h1 h2
    rw [conjReach_loop h, conjLoop_eq, if_pos h1]
    simp [h2]
  · intro h h1 h2
    rw [disjReach_loop h, disjLoop_eq, if_pos h1]
    simp [h2]
  · intro h1 h2
    rw [treeImplication_eq, h1]
    simp [h2]
  · intro h1 h2
    rw [treeBiconditional_eq, h1]
    simp [h2]
  · simp [treeConjunction_eq, conjLoop_eq, treeLiteral_eq, treeAtom_eq, acceptCharacter,
      treeIdentifier, newFormTreeNode]
  · simp [treeConjunction_eq, conjLoop_eq, treeLiteral_eq, treeAtom_eq, acceptCharacter,
      treeIdentifier, newFormTreeNode]

/-- Witness for C11: `a & b &`, `a |`, `a - >` and `a < - >`. -/
theorem committed_operator_fails_witness :
    (treeConjunction
        [Token.identifier "a", Token.symbol '&', Token.identifier "b", Token.symbol '&']
        FormTree.null).ok = false
      ∧ (treeDisjunction [Token.identifier "a", Token.symbol '|'] FormTree.null).ok = false
      ∧ (treeImplication [Token.identifier "a", Token.symbol '-', Token.symbol '>']
          FormTree.null).ok = false
      ∧ (treeBiconditional
          [Token.identifier "a", Token.symbol '<', Token.symbol '-', Token.symbol '>']
          FormTree.null).ok = false := by
  have hl : treeLiteral
      [Token.identifier "a", Token.symbol '&', Token.identifier "b", Token.symbol '&']
      FormTree.null
      = ⟨true, [Token.symbol '&', Token.identifier "b", Token.symbol '&'],
          leaf (Token.identifier "a")⟩ := by
    simp [leaf, treeLiteral_eq, treeAtom_eq, acceptCharacter, treeIdentifier,
      newFormTreeNode]
  have hl2 : treeLiteral [Token.identifier "b", Token.symbol '&'] FormTree.null
      = ⟨true, [Token.symbol '&'], leaf (Token.identifier "b")⟩ := by
    simp [leaf, treeLiteral_eq, treeAtom_eq, acceptCharacter, treeIdentifier,
      newFormTreeNode]
  have h1 : ConjReach
      [Token.identifier "a", Token.symbol '&', Token.identifier "b", Token.symbol '&']
      FormTree.null [Token.symbol '&', Token.identifier "b", Token.symbol '&']
      (leaf (Token.identifier "a")) := by
    have h := @ConjReach.first
      [Token.identifier "a", Token.symbol '&', Token.identifier "b", Token.symbol '&']
      FormTree.null (by rw [hl])
    rw [hl] at h
    exact h
  have h2 : ConjReach
      [Token.identifier "a", Token.symbol '&', Token.identifier "b", Token.symbol '&']
      FormTree.null [Token.symbol '&']
      (FormTree.node (Token.symbol '&') (leaf (Token.identifier "a"))
        (leaf (Token.identifier "b"))) := by
    have h := ConjReach.next h1 (by simp) (by simp [hl2])
    simp only [acceptCharacter_same, hl2] at h
    exact h
  have hc : treeConjunction [Token.identifier "a", Token.symbol '|'] FormTree.null
      = ⟨true, [Token.symbol '|'], leaf (Token.identifier "a")⟩ := by
    simp [leaf, treeConjunction_eq, conjLoop_eq, treeLiteral_eq, treeAtom_eq,
      acceptCharacter, treeIdentifier, newFormTreeNode]
  have h3 : DisjReach [Token.identifier "a", Token.symbol '|'] FormTree.null
      [Token.symbol '|'] (leaf (Token.identifier "a")) := by
    have h := @DisjReach.first [Token.identifier "a", Token.symbol '|'] FormTree.null
      (by rw [hc])
    rw [hc] at h
    exact h
  refine ⟨?_, ?_, ?_, ?_⟩
  · exact (committed_operator_fails _ _ [] _ _ FormTree.null).1 h2 (by simp)
      (by simp [treeLiteral_eq, treeAtom_eq, treeIdentifier])
  · exact (committed_operator_fails _ _ [] _ _ FormTree.null).2.1 h3 (by simp)
      (by simp [treeConjunction_eq, treeLiteral_eq, treeAtom_eq, treeIdentifier])
  · exact (committed_operator_fails
      [Token.identifier "a", Token.symbol '-', Token.symbol '>'] [] [] FormTree.null
      FormTree.null (leaf (Token.identifier "a"))).2.2.1
      (by simp [leaf, treeDisjunction_eq, disjLoop_eq, treeConjunction_eq, conjLoop_eq,
            treeLiteral_eq, treeAtom_eq, acceptCharacter, treeIdentifier, newFormTreeNode])
      (by simp [treeDisjunction_eq, treeConjunction_eq, treeLiteral_eq, treeAtom_eq,
            treeIdentifier])
  · exact (committed_operator_fails
      [Token.identifier "a", Token.symbol '<', Token.symbol '-', Token.symbol '>'] [] []
      FormTree.null FormTree.null (leaf (Token.identifier "a"))).2.2.2.1
      (by simp [leaf, treeImplication_eq, treeDisjunction_eq, disjLoop_eq,
            treeConjunction_eq, conjLoop_eq,
            treeLiteral_eq, treeAtom_eq, acceptCharacter, treeIdentifier, newFormTreeNode])
      (by simp [treeImplication_eq, treeDisjunction_eq, treeConjunction_eq, treeLiteral_eq,
            treeAtom_eq, treeIdentifier])

/-- C12. Missing closing parenthesis: when `treeBiconditional` succeeds on the tokens
after `(` and the token right after the matched inner formula is not `)` (or the input
ends there), `treeAtom` reports failure. On the tokens of `(a & b` every grammar level
from `treeAtom` up to `treeBiconditional` reports failure. -/
theorem missing_close_paren (rest : List Token) (t : FormTree) :
    ((treeBiconditional rest t).ok = true →
        (treeBiconditional rest t).lp.head? ≠ some (Token.symbol ')') →
        (treeAtom (Token.symbol '(' :: rest) t).ok = false)
      ∧ (∀ L : Level,
        (parseLevel L
          [Token.symbol '(', Token.identifier "a", Token.symbol '&', Token.identifier "b"]
          t).ok = false) := by
  refine ⟨?_, ?_⟩
  · intro h1 h2
    rw [treeAtom_eq]
    simp [acceptCharacter_other (show '(' ≠ 'T' by decide),
      acceptCharacter_other (show '(' ≠ 'F' by decide), treeIdentifier, h1,
      acceptCharacter_of_head_ne h2]
  · intro L
    cases L <;>
      simp [parseLevel, treeBiconditional_eq, treeImplication_eq, treeDisjunction_eq,
        disjLoop_eq, treeConjunction_eq, conjLoop_eq, treeLiteral_eq, treeAtom_eq,
        acceptCharacter, treeIdentifier, newFormTreeNode]

/-- Witness for C12: `( a b`, where the token after the inner formula `a` is `b`. -/
theorem missing_close_paren_witness :
    (treeAtom [Token.symbol '(', Token.identifier "a", Token.identifier "b"]
      FormTree.null).ok = false :=
  (missing_close_paren [Token.identifier "a", Token.identifier "b"] FormTree.null).1
    (by simp [treeBiconditional_eq, treeImplication_eq, treeDisjunction_eq, disjLoop_eq,
          treeConjunction_eq, conjLoop_eq, treeLiteral_eq, treeAtom_eq, acceptCharacter,
          treeIdentifier, newFormTreeNode])
    (by simp [treeBiconditional_eq, treeImplication_eq, treeDisjunction_eq, disjLoop_eq,
          treeConjunction_eq, conjLoop_eq, treeLiteral_eq, treeAtom_eq, acceptCharacter,
          treeIdentifier, newFormTreeNode])

theorem treeLiteral_neg_fail {rest : List Token}
    (h : (treeAtom rest FormTree.null).ok = false) (t : FormTree) :
    treeLiteral (Token.symbol '~' :: rest) t
      = ⟨false, (treeAtom rest FormTree.null).lp, t⟩ := by
  rw [treeLiteral_eq]
  simp [treeAtom_symbol_fail (show '~' ≠ 'T' by decide) (show '~' ≠ 'F' by decide)
    (show '~' ≠ '(' by decide), h]

theorem parseLevel_neg_fail {rest : List Token}
    (h : (treeAtom rest FormTree.null).ok = false) (t : FormTree) {L : Level}
    (hL : L ≠ Level.atom) :
    parseLevel L (Token.symbol '~' :: rest) t
      = ⟨false, (treeAtom rest FormTree.null).lp, t⟩ := by
  have hl := treeLiteral_neg_fail h t
  have hc : treeConjunction (Token.symbol '~' :: rest) t
      = ⟨false, (treeAtom rest FormTree.null).lp, t⟩ := by
    rw [treeConjunction_eq, hl]
    simp
  have hd : treeDisjunction (Token.symbol '~' :: rest) t
      = ⟨false, (treeAtom rest FormTree.null).lp, t⟩ := by
    rw [treeDisjunction_eq, hc]
    simp
  have hi : treeImplication (Token.symbol '~' :: rest) t
      = ⟨false, (treeAtom rest FormTree.null).lp, t⟩ := by
    rw [treeImplication_eq, hd]
    simp
  have hb : treeBiconditional (Token.symbol '~' :: rest) t
      = ⟨false, (treeAtom rest FormTree.null).lp, t⟩ := by
    rw [treeBiconditional_eq, hi]
    simp
  cases L
  · exact absurd rfl hL
  · exact hl
  · exact hc
  · exact hd
  · exact hi
  · exact hb

/-- C13. Negation needs an atom: when the first token is `~` and `treeAtom` fails on the
remainder, `treeLiteral` and every level up to `treeBiconditional` report failure and
leave the output tree as it was (no negation node is returned). In particular the single
token `~` fails, and so does every input that begins with two `~` tokens. -/
theorem negation_needs_atom (L : Level) (rest : List Token) (t : FormTree)
    (hL : L ≠ Level.atom) :
    ((treeAtom rest FormTree.null).ok = false →
        (parseLevel L (Token.symbol '~' :: rest) t).ok = false
          ∧ (parseLevel L (Token.symbol '~' :: rest) t).t = t)
      ∧ (parseLevel L [Token.symbol '~'] t).ok = false
      ∧ (parseLevel L (Token.symbol '~' :: Token.symbol '~' :: rest) t).ok = false := by
  refine ⟨?_, ?_, ?_⟩
  · intro h
    rw [parseLevel_neg_fail h t hL]
    exact ⟨rfl, rfl⟩
  · rw [parseLevel_neg_fail (by rw [treeAtom_nil]) t hL]
  · rw [parseLevel_neg_fail
      (by rw [treeAtom_symbol_fail (show '~' ≠ 'T' by decide) (show '~' ≠ 'F' by decide)
            (show '~' ≠ '(' by decide)]) t hL]

/-- Witness for C13: `~ ) a` at the level of the conjunction. -/
theorem negation_needs_atom_witness :
    (parseLevel Level.conjunction
        [Token.symbol '~', Token.symbol ')', Token.identifier "a"] FormTree.null).ok = false
      ∧ (parseLevel Level.conjunction
        [Token.symbol '~', Token.symbol ')', Token.identifier "a"] FormTree.null).t
        = FormTree.null :=
  (negation_needs_atom Level.conjunction [Token.symbol ')', Token.identifier "a"]
    FormTree.null (by decide)).1
    (by simp [treeAtom_eq, acceptCharacter, treeIdentifier])

/-! ## Progress -/

theorem treeIdentifier_length_lt {lp : List Token} {t : FormTree}
    (h : (treeIdentifier lp t).ok = true) : (treeIdentifier lp t).lp.length < lp.length := by
  unfold treeIdentifier at h ⊢
  split
  · simp
  · simp at h

theorem treeAtom_progress {lp : List Token} {t : FormTree}
    (h : (treeAtom lp t).ok = true) : (treeAtom lp t).lp.length < lp.length := by
  have e := treeAtom_eq lp t
  split_ifs at e with h1 h2 h3 h4 h5 h6
  · rw [e]
    exact acceptCharacter_length_lt lp 'T' h1
  · rw [e]
    exact acceptCharacter_length_lt lp 'F' h2
  · rw [e]
    exact treeIdentifier_length_lt h3
  · rw [e]
    have a := acceptCharacter_length_lt lp '(' h4
    have b : (treeBiconditional (acceptCharacter lp '(').2 t).lp <:+ (acceptCharacter lp '(').2 :=
      run_suffix Fn.biconditional _ _
    have c := acceptCharacter_suffix (treeBiconditional (acceptCharacter lp '(').2 t).lp ')'
    exact Nat.lt_of_le_of_lt (c.trans b).length_le a
  · rw [e] at h
    simp at h
  · rw [e] at h
    simp at h
  · rw [e] at h
    simp at h

theorem treeLiteral_progress {lp : List Token} {t : FormTree}
    (h : (treeLiteral lp t).ok = true) : (treeLiteral lp t).lp.length < lp.length := by
  have a : (treeAtom lp t).lp <:+ lp := run_suffix Fn.atom lp t
  have e := treeLiteral_eq lp t
  split_ifs at e with h1 h2 h3
  · rw [e]
    exact treeAtom_progress h1
  · rw [e]
    have b := acceptCharacter_length_lt _ '~' h2
    have c : (treeAtom (acceptCharacter (treeAtom lp t).lp '~').2 FormTree.null).lp
        <:+ (acceptCharacter (treeAtom lp t).lp '~').2 := run_suffix Fn.atom _ _
    exact Nat.lt_of_le_of_lt c.length_le (Nat.lt_of_lt_of_le b a.length_le)
  · rw [e] at h
    simp at h
  · rw [e] at h
    simp at h

theorem treeConjunction_progress {lp : List Token} {t : FormTree}
    (h : (treeConjunction lp t).ok = true) : (treeConjunction lp t).lp.length < lp.length := by
  have e := treeConjunction_eq lp t
  split_ifs at e with h1
  · rw [e]
    have c : (conjLoop (treeLiteral lp t).lp (treeLiteral lp t).t).lp <:+ (treeLiteral lp t).lp :=
      run_suffix Fn.conjLoop _ _
    exact Nat.lt_of_le_of_lt c.length_le (treeLiteral_progress h1)
  · rw [e] at h
    simp at h

theorem treeDisjunction_progress {lp : List Token} {t : FormTree}
    (h : (treeDisjunction lp t).ok = true) : (treeDisjunction lp t).lp.length < lp.length := by
  have e := treeDisjunction_eq lp t
  split_ifs at e with h1
  · rw [e]
    have c : (disjLoop (treeConjunction lp t).lp (treeConjunction lp t).t).lp
        <:+ (treeConjunction lp t).lp := run_suffix Fn.disjLoop _ _
    exact Nat.lt_of_le_of_lt c.length_le (treeConjunction_progress h1)
  · rw [e] at h
    simp at h

theorem treeImplication_progress {lp : List Token} {t : FormTree}
    (h : (treeImplication lp t).ok = true) : (treeImplication lp t).lp.length < lp.length := by
  have a : (treeImplication lp t).lp <:+ lp := run_suffix Fn.implication lp t
  have e := treeImplication_eq lp t
  have hd : (treeDisjunction lp t).ok = true := by
    by_contra hn
    rw [e, if_neg hn] at h
    simp at h
  have p := treeDisjunction_progress hd
  have b := acceptCharacter_suffix (treeDisjunction lp t).lp '-'
  have c := acceptCharacter_suffix (acceptCharacter (treeDisjunction lp t).lp '-').2 '>'
  split_ifs at e with h2 h3 h4
  · rw [e]
    have d : (treeDisjunction
        (acceptCharacter (acceptCharacter (treeDisjunction lp t).lp '-').2 '>').2
        FormTree.null).lp
        <:+ (acceptCharacter (acceptCharacter (treeDisjunction lp t).lp '-').2 '>').2 :=
      run_suffix Fn.disjunction _ _
    exact Nat.lt_of_le_of_lt (d.trans (c.trans b)).length_le p
  · rw [e] at h
    simp at h
  · rw [e]
    exact Nat.lt_of_le_of_lt b.length_le p
  · rw [e]
    exact p

theorem treeBiconditional_progress {lp : List Token} {t : FormTree}
    (h : (treeBiconditional lp t).ok = true) :
    (treeBiconditional lp t).lp.length < lp.length := by
  have e := treeBiconditional_eq lp t
  have hd : (treeImplication lp t).ok = true := by
    by_contra hn
    rw [e, if_neg hn] at h
    simp at h
  have p := treeImplication_progress hd
  have b := acceptCharacter_suffix (treeImplication lp t).lp '<'
  have c := acceptCharacter_suffix (acceptCharacter (treeImplication lp t).lp '<').2 '-'
  have d := acceptCharacter_suffix
    (acceptCharacter (acceptCharacter (treeImplication lp t).lp '<').2 '-').2 '>'
  split_ifs at e with h2 h3 h4 h5
  · rw [e]
    have f : (treeImplication
        (acceptCharacter
          (acceptCharacter (acceptCharacter (treeImplication lp t).lp '<').2 '-').2 '>').2
        FormTree.null).lp
        <:+ (acceptCharacter
          (acceptCharacter (acceptCharacter (treeImplication lp t).lp '<').2 '-').2 '>').2 :=
      run_suffix Fn.implication _ _
    exact Nat.lt_of_le_of_lt (f.trans (d.trans (c.trans b))).length_le p
  · rw [e] at h
    simp at h
  · rw [e]
    exact Nat.lt_of_le_of_lt (c.trans b).length_le p
  · rw [e]
    exact Nat.lt_of_le_of_lt b.length_le p
  · rw [e]
    exact p

/-- C14. Progress: the cursor a grammar function leaves is a suffix of the input, and a
proper one when the function succeeds (at least one token is consumed); so every grammar
function, `treeIdentifier` included, reports failure on the empty token sequence. -/
theorem progress_on_success (L : Level) (lp : List Token) (t : FormTree) :
    (parseLevel L lp t).lp <:+ lp
      ∧ ((parseLevel L lp t).ok = true → (parseLevel L lp t).lp.length < lp.length)
      ∧ (parseLevel L [] t).ok = false
      ∧ (treeIdentifier lp t).lp <:+ lp
      ∧ ((treeIdentifier lp t).ok = true → (treeIdentifier lp t).lp.length < lp.length)
      ∧ (treeIdentifier [] t).ok = false := by
  refine ⟨?_, ?_, ?_, treeIdentifier_suffix lp t, treeIdentifier_length_lt, rfl⟩
  · rw [parseLevel_eq_run]
    exact run_suffix L.fn lp t
  · cases L
    · exact treeAtom_progress
    · exact treeLiteral_progress
    · exact treeConjunction_progress
    · exact treeDisjunction_progress
    · exact treeImplication_progress
    · exact treeBiconditional_progress
  · rw [parseLevel_noStart (show noStart [] = true from rfl) t L]

/-- Witness for C14: `treeBiconditional` on `a & b` and `treeIdentifier` on `a`. -/
theorem progress_on_success_witness :
    (parseLevel Level.biconditional
        [Token.identifier "a", Token.symbol '&', Token.identifier "b"]
        FormTree.null).lp.length < 3
      ∧ (treeIdentifier [Token.identifier "a"] FormTree.null).lp.length < 1 :=
  ⟨(progress_on_success Level.biconditional
      [Token.identifier "a", Token.symbol '&', Token.identifier "b"] FormTree.null).2.1
      (by simp [parseLevel, treeBiconditional_eq, treeImplication_eq, treeDisjunction_eq,
            disjLoop_eq, treeConjunction_eq, conjLoop_eq, treeLiteral_eq, treeAtom_eq,
            acceptCharacter, treeIdentifier, newFormTreeNode]),
   (progress_on_success Level.atom [Token.identifier "a"] FormTree.null).2.2.2.2.1 rfl⟩

/-! ## Incomplete operators -/

/-- C15 fails on the code. On `a -` `treeImplication` accepts the `-`, does not find
`>` and reports success (with the tree of `a`), not failure; followed by another token,
as in `a - b`, the same. `treeBiconditional` reports success on `a <` and on `a < -`. -/
theorem incomplete_operator_accepted :
    treeImplication [Token.identifier "a", Token.symbol '-'] FormTree.null
        = ⟨true, [], leaf (Token.identifier "a")⟩
      ∧ treeImplication [Token.identifier "a", Token.symbol '-', Token.identifier "b"]
          FormTree.null
        = ⟨true, [Token.identifier "b"], leaf (Token.identifier "a")⟩
      ∧ treeBiconditional [Token.identifier "a", Token.symbol '<'] FormTree.null
        = ⟨true, [], leaf (Token.identifier "a")⟩
      ∧ treeBiconditional [Token.identifier "a", Token.symbol '<', Token.symbol '-']
          FormTree.null
        = ⟨true, [], leaf (Token.identifier "a")⟩ := by
  refine ⟨?_, ?_, ?_, ?_⟩ <;>
    simp [leaf, treeBiconditional_eq, treeImplication_eq, treeDisjunction_eq, disjLoop_eq,
      treeConjunction_eq, conjLoop_eq, treeLiteral_eq, treeAtom_eq, acceptCharacter,
      treeIdentifier, newFormTreeNode]

/-- C17. Commit without un-consumption: when `treeDisjunction` matches a prefix, the
next token is `-` and the token after it is not `>` (or is missing), `treeImplication`
returns with the cursor after that `-`. When `treeImplication` matches a prefix followed
by `<`, `treeBiconditional` returns with the `<` consumed in every case: with the cursor
right after `<` when no `-` follows, and after `< -` when `-` follows and `>` does not. -/
theorem commit_without_unconsume (lp lp2 : List Token) (t t1 : FormTree) :
    (treeDisjunction lp t = ⟨true, Token.symbol '-' :: lp2, t1⟩ →
        lp2.head? ≠ some (Token.symbol '>') →
        treeImplication lp t = ⟨true, lp2, t1⟩)
      ∧ (treeImplication lp t = ⟨true, Token.symbol '<' :: lp2, t1⟩ →
        (treeBiconditional lp t).lp <:+ lp2)
      ∧ (treeImplication lp t = ⟨true, Token.symbol '<' :: lp2, t1⟩ →
        lp2.head? ≠ some (Token.symbol '-') →
        treeBiconditional lp t = ⟨true, lp2, t1⟩)
      ∧ (treeImplication lp t = ⟨true, Token.symbol '<' :: Token.symbol '-' :: lp2, t1⟩ →
        lp2.head? ≠ some (Token.symbol '>') →
        treeBiconditional lp t = ⟨true, lp2, t1⟩) := by
  refine ⟨?_, ?_, ?_, ?_⟩
  · intro h1 h2
    rw [treeImplication_eq, h1]
    simp [acceptCharacter_of_head_ne h2]
  · intro h1
    have c := acceptCharacter_suffix lp2 '-'
    have d := acceptCharacter_suffix (acceptCharacter lp2 '-').2 '>'
    have f : (treeImplication (acceptCharacter (acceptCharacter lp2 '-').2 '>').2
        FormTree.null).lp <:+ (acceptCharacter (acceptCharacter lp2 '-').2 '>').2 :=
      run_suffix Fn.implication _ _
    rw [treeBiconditional_eq, h1]
    simp only [acceptCharacter_same, if_true]
    split_ifs
    · exact f.trans (d.trans c)
    · exact f.trans (d.trans c)
    · exact c
    · exact List.suffix_refl lp2
  · intro h1 h2
    rw [treeBiconditional_eq, h1]
    simp [acceptCharacter_of_head_ne h2]
  · intro h1 h2
    rw [treeBiconditional_eq, h1]
    simp [acceptCharacter_of_head_ne h2]

/-- Witness for C17: `a - b`, `a < b` and `a < - b`. -/
theorem commit_without_unconsume_witness :
    treeImplication [Token.identifier "a", Token.symbol '-', Token.identifier "b"]
        FormTree.null
      = ⟨true, [Token.identifier "b"], leaf (Token.identifier "a")⟩
    ∧ treeBiconditional [Token.identifier "a", Token.symbol '<', Token.identifier "b"]
        FormTree.null
      = ⟨true, [Token.identifier "b"], leaf (Token.identifier "a")⟩
    ∧ treeBiconditional
        [Token.identifier "a", Token.symbol '<', Token.symbol '-', Token.identifier "b"]
        FormTree.null
      = ⟨true, [Token.identifier "b"], leaf (Token.identifier "a")⟩ :=
  ⟨(commit_without_unconsume
      [Token.identifier "a", Token.symbol '-', Token.identifier "b"]
      [Token.identifier "b"] FormTree.null (leaf (Token.identifier "a"))).1
      (by simp [leaf, treeDisjunction_eq, disjLoop_eq, treeConjunction_eq, conjLoop_eq,
            treeLiteral_eq, treeAtom_eq, acceptCharacter, treeIdentifier, newFormTreeNode])
      (by decide),
   (commit_without_unconsume
      [Token.identifier "a", Token.symbol '<', Token.identifier "b"]
      [Token.identifier "b"] FormTree.null (leaf (Token.identifier "a"))).2.2.1
      (by simp [leaf, treeImplication_eq, treeDisjunction_eq, disjLoop_eq,
            treeConjunction_eq, conjLoop_eq,
            treeLiteral_eq, treeAtom_eq, acceptCharacter, treeIdentifier, newFormTreeNode])
      (by decide),
   (commit_without_unconsume
      [Token.identifier "a", Token.symbol '<', Token.symbol '-', Token.identifier "b"]
      [Token.identifier "b"] FormTree.null (leaf (Token.identifier "a"))).2.2.2
      (by simp [leaf, treeImplication_eq, treeDisjunction_eq, disjLoop_eq,
            treeConjunction_eq, conjLoop_eq,
            treeLiteral_eq, treeAtom_eq, acceptCharacter, treeIdentifier, newFormTreeNode])
      (by decide)⟩

/-! ## Shape and size of the returned tree -/

theorem built_shape {toks : List Token} {t : FormTree} (h : Built toks t) :
    isPresent t = true ∧ shapeOK t = true := by
  induction h with
  | constT => exact ⟨rfl, by decide⟩
  | constF => exact ⟨rfl, by decide⟩
  | ident name _ => exact ⟨rfl, rfl⟩
  | neg _ ih =>
    exact ⟨rfl, by simp [shapeOK, ih.1, ih.2, show isPresent FormTree.null = false from rfl]⟩
  | bin c hc _ _ ihl ihr =>
    refine ⟨rfl, ?_⟩
    rcases hc with hc | hc | hc | hc <;> subst hc <;>
      simp [shapeOK, ihl.1, ihl.2, ihr.1, ihr.2]

/-- C19. Shape invariant: the tree a grammar function (`treeIdentifier` included)
returns on success is present and every node of it is a terminal (`T`, `F` or an
identifier, no children), a unary node (`~` with a left child only) or a binary node
(`&`, `|`, `-` or `<` with both children); no other symbol appears in a node. -/
theorem parse_result_shape (L : Level) (lp : List Token) (t : FormTree) :
    ((parseLevel L lp t).ok = true →
        isPresent (parseLevel L lp t).t = true ∧ shapeOK (parseLevel L lp t).t = true)
      ∧ ((treeIdentifier lp t).ok = true →
        isPresent (treeIdentifier lp t).t = true
          ∧ shapeOK (treeIdentifier lp t).t = true) := by
  refine ⟨?_, ?_⟩
  · intro h
    rw [parseLevel_eq_run] at h ⊢
    exact built_shape
      (run_built L.fn lp t lp (fun _ hx => hx) h (fun hl => by cases L <;> cases hl))
  · intro h
    obtain ⟨name, _, ht⟩ := treeIdentifier_ok h
    rw [ht]
    exact ⟨rfl, rfl⟩

/-- Witness for C19: the tree of `~ a - > b`. -/
theorem parse_result_shape_witness :
    isPresent (parseLevel Level.implication
        [Token.symbol '~', Token.identifier "a", Token.symbol '-', Token.symbol '>',
          Token.identifier "b"] FormTree.null).t = true
      ∧ shapeOK (parseLevel Level.implication
        [Token.symbol '~', Token.identifier "a", Token.symbol '-', Token.symbol '>',
          Token.identifier "b"] FormTree.null).t = true :=
  (parse_result_shape Level.implication
    [Token.symbol '~', Token.identifier "a", Token.symbol '-', Token.symbol '>',
      Token.identifier "b"] FormTree.null).1
    (by simp [parseLevel, treeImplication_eq, treeDisjunction_eq, disjLoop_eq,
          treeConjunction_eq, conjLoop_eq, treeLiteral_eq, treeAtom_eq, acceptCharacter,
          treeIdentifier, newFormTreeNode])

theorem complexityTree_le_nodeCount (t : FormTree) : complexityTree t ≤ nodeCount t := by
  induction t with
  | null => exact Nat.le_refl _
  | node tok l r ihl ihr =>
    rw [complexityTree_node]
    simp only [nodeCount]
    omega

/-- The nodes of the returned tree are paid for by consumed tokens (a loop: the nodes it
adds to the tree it starts from). -/
theorem run_nodeCount : ∀ f lp t, (run f lp t).ok = true →
    nodeCount (run f lp t).t + (run f lp t).lp.length
      ≤ (if f.isLoop = true then nodeCount t else 0) + lp.length := by
  apply parser_induction
  intro f lp t ih1 ih2 hok
  cases f with
  | atom =>
    change (treeAtom lp t).ok = true at hok
    change nodeCount (treeAtom lp t).t + (treeAtom lp t).lp.length ≤ 0 + lp.length
    have e := treeAtom_eq lp t
    split_ifs at e with h1 h2 h3 h4 h5 h6
    · rw [e]
      have := acceptCharacter_length_lt lp 'T' h1
      simp only [nodeCount]
      omega
    · rw [e]
      have := acceptCharacter_length_lt lp 'F' h2
      simp only [nodeCount]
      omega
    · rw [e]
      obtain ⟨name, _, ht⟩ := treeIdentifier_ok h3
      have := treeIdentifier_length_lt h3
      simp only [ht, leaf, nodeCount]
      omega
    · rw [e]
      have a := acceptCharacter_length_lt lp '(' h4
      have b := ih1 Fn.biconditional _ t a h5
      have c := acceptCharacter_length_le (treeBiconditional (acceptCharacter lp '(').2 t).lp ')'
      simp only [run, Fn.isLoop, Bool.false_eq_true, if_false] at b
      show nodeCount (treeBiconditional (acceptCharacter lp '(').2 t).t
        + (acceptCharacter (treeBiconditional (acceptCharacter lp '(').2 t).lp ')').2.length
        ≤ 0 + lp.length
      omega
    · rw [e] at hok
      simp at hok
    · rw [e] at hok
      simp at hok
    · rw [e] at hok
      simp at hok
  | literal =>
    change (treeLiteral lp t).ok = true at hok
    change nodeCount (treeLiteral lp t).t + (treeLiteral lp t).lp.length ≤ 0 + lp.length
    have a : (treeAtom lp t).lp.length ≤ lp.length := run_length_le Fn.atom lp t
    have e := treeLiteral_eq lp t
    split_ifs at e with h1 h2 h3
    · rw [e]
      have b := ih2 Fn.atom lp t (Nat.le_refl _) (by decide) h1
      simp only [run, Fn.isLoop, Bool.false_eq_true, if_false] at b
      exact b
    · rw [e]
      have c := acceptCharacter_length_lt _ '~' h2
      have b := ih1 Fn.atom _ FormTree.null (Nat.lt_of_lt_of_le c a) h3
      simp only [run, Fn.isLoop, Bool.false_eq_true, if_false] at b
      simp only [nodeCount]
      omega
    · rw [e] at hok
      simp at hok
    · rw [e] at hok
      simp at hok
  | conjLoop =>
    change (conjLoop lp t).ok = true at hok
    change nodeCount (conjLoop lp t).t + (conjLoop lp t).lp.length
      ≤ nodeCount t + lp.length
    have e := conjLoop_eq lp t
    split_ifs at e with h1 h2
    · rw [e] at hok ⊢
      have a := acceptCharacter_length_lt lp '&' h1
      have b := ih1 Fn.literal _ FormTree.null a h2
      have c : (treeLiteral (acceptCharacter lp '&').2 FormTree.null).lp.length
          ≤ (acceptCharacter lp '&').2.length := run_length_le Fn.literal _ _
      have d := ih1 Fn.conjLoop _ _ (Nat.lt_of_le_of_lt c a) hok
      simp only [run, Fn.isLoop, Bool.false_eq_true, if_false, if_true, nodeCount] at b d
      omega
    · rw [e] at hok
      simp at hok
    · rw [e]
  | conjunction =>
    change (treeConjunction lp t).ok = true at hok
    change nodeCount (treeConjunction lp t).t + (treeConjunction lp t).lp.length
      ≤ 0 + lp.length
    have e := treeConjunction_eq lp t
    split_ifs at e with h1
    · rw [e] at hok ⊢
      have a : (treeLiteral lp t).lp.length ≤ lp.length := run_length_le Fn.literal lp t
      have b := ih2 Fn.literal lp t (Nat.le_refl _) (by decide) h1
      have d := ih2 Fn.conjLoop _ _ a (by decide) hok
      simp only [run, Fn.isLoop, Bool.false_eq_true, if_false, if_true] at b d
      omega
    · rw [e] at hok
      simp at hok
  | disjLoop =>
    change (disjLoop lp t).ok = true at hok
    change nodeCount (disjLoop lp t).t + (disjLoop lp t).lp.length
      ≤ nodeCount t + lp.length
    have e := disjLoop_eq lp t
    split_ifs at e with h1 h2
    · rw [e] at hok ⊢
      have a := acceptCharacter_length_lt lp '|' h1
      have b := ih1 Fn.conjunction _ FormTree.null a h2
      have c : (treeConjunction (acceptCharacter lp '|').2 FormTree.null).lp.length
          ≤ (acceptCharacter lp '|').2.length := run_length_le Fn.conjunction _ _
      have d := ih1 Fn.disjLoop _ _ (Nat.lt_of_le_of_lt c a) hok
      simp only [run, Fn.isLoop, Bool.false_eq_true, if_false, if_true, nodeCount] at b d
      omega
    · rw [e] at hok
      simp at hok
    · rw [e]
  | disjunction =>
    change (treeDisjunction lp t).ok = true at hok
    change nodeCount (treeDisjunction lp t).t + (treeDisjunction lp t).lp.length
      ≤ 0 + lp.length
    have e := treeDisjunction_eq lp t
    split_ifs at e with h1
    · rw [e] at hok ⊢
      have a : (treeConjunction lp t).lp.length ≤ lp.length :=
        run_length_le Fn.conjunction lp t
      have b := ih2 Fn.conjunction lp t (Nat.le_refl _) (by decide) h1
      have d := ih2 Fn.disjLoop _ _ a (by decide) hok
      simp only [run, Fn.isLoop, Bool.false_eq_true, if_false, if_true] at b d
      omega
    · rw [e] at hok
      simp at hok
  | implication =>
    change (treeImplication lp t).ok = true at hok
    change nodeCount (treeImplication lp t).t + (treeImplication lp t).lp.length
      ≤ 0 + lp.length
    have a : (treeDisjunction lp t).lp.length ≤ lp.length :=
      run_length_le Fn.disjunction lp t
    have c := acceptCharacter_length_le (treeDisjunction lp t).lp '-'
    have c2 := acceptCharacter_length_le (acceptCharacter (treeDisjunction lp t).lp '-').2 '>'
    have e := treeImplication_eq lp t
    split_ifs at e with h1 h2 h3 h4
    · rw [e]
      have b := ih2 Fn.disjunction lp t (Nat.le_refl _) (by decide) h1
      have c3 := acceptCharacter_length_lt _ '-' h2
      have d := ih1 Fn.disjunction _ FormTree.null (by omega) h4
      simp only [run, Fn.isLoop, Bool.false_eq_true, if_false] at b d
      simp only [nodeCount]
      omega
    · rw [e] at hok
      simp at hok
    · rw [e]
      have b := ih2 Fn.disjunction lp t (Nat.le_refl _) (by decide) h1
      simp only [run, Fn.isLoop, Bool.false_eq_true, if_false] at b
      show nodeCount (treeDisjunction lp t).t
        + (acceptCharacter (treeDisjunction lp t).lp '-').2.length ≤ 0 + lp.length
      omega
    · rw [e]
      have b := ih2 Fn.disjunction lp t (Nat.le_refl _) (by decide) h1
      simp only [run, Fn.isLoop, Bool.false_eq_true, if_false] at b
      exact b
    · rw [e] at hok
      simp at hok
  | biconditional =>
    change (treeBiconditional lp t).ok = true at hok
    change nodeCount (treeBiconditional lp t).t + (treeBiconditional lp t).lp.length
      ≤ 0 + lp.length
    have a : (treeImplication lp t).lp.length ≤ lp.length :=
      run_length_le Fn.implication lp t
    have c := acceptCharacter_length_le (treeImplication lp t).lp '<'
    have c2 := acceptCharacter_length_le (acceptCharacter (treeImplication lp t).lp '<').2 '-'
    have c3 := acceptCharacter_length_le
      (acceptCharacter (acceptCharacter (treeImplication lp t).lp '<').2 '-').2 '>'
    have e := treeBiconditional_eq lp t
    split_ifs at e with h1 h2 h3 h4 h5
    · rw [e]
      have b := ih2 Fn.implication lp t (Nat.le_refl _) (by decide) h1
      have c4 := acceptCharacter_length_lt _ '<' h2
      have d := ih1 Fn.implication _ FormTree.null (by omega) h5
      simp only [run, Fn.isLoop, Bool.false_eq_true, if_false] at b d
      simp only [nodeCount]
      omega
    · rw [e] at hok
      simp at hok
    · rw [e]
      have b := ih2 Fn.implication lp t (Nat.le_refl _) (by decide) h1
      simp only [run, Fn.isLoop, Bool.false_eq_true, if_false] at b
      show nodeCount (treeImplication lp t).t
        + (acceptCharacter (acceptCharacter (treeImplication lp t).lp '<').2 '-').2.length
        ≤ 0 + lp.length
      omega
    · rw [e]
      have b := ih2 Fn.implication lp t (Nat.le_refl _) (by decide) h1
      simp only [run, Fn.isLoop, Bool.false_eq_true, if_false] at b
      show nodeCount (treeImplication lp t).t
        + (acceptCharacter (treeImplication lp t).lp '<').2.length ≤ 0 + lp.length
      omega
    · rw [e]
      have b := ih2 Fn.implication lp t (Nat.le_refl _) (by decide) h1
      simp only [run, Fn.isLoop, Bool.false_eq_true, if_false] at b
      exact b
    · rw [e] at hok
      simp at hok

/-- C20. Size bound: when a grammar function succeeds, the number of nodes of the
returned tree is at most the number of tokens it consumed, and so is `complexityTree` of
the returned tree. -/
theorem nodes_le_consumed (L : Level) (lp : List Token) (t : FormTree)
    (h : (parseLevel L lp t).ok = true) :
    nodeCount (parseLevel L lp t).t ≤ lp.length - (parseLevel L lp t).lp.length
      ∧ complexityTree (parseLevel L lp t).t
        ≤ lp.length - (parseLevel L lp t).lp.length
      ∧ (parseLevel L lp t).lp.length ≤ lp.length := by
  rw [parseLevel_eq_run] at h ⊢
  have h1 := run_nodeCount L.fn lp t h
  have h2 : L.fn.isLoop = false := by cases L <;> rfl
  have h3 := complexityTree_le_nodeCount (run L.fn lp t).t
  have h4 := run_length_le L.fn lp t
  simp only [h2, Bool.false_eq_true, if_false] at h1
  omega

/-- Witness for C20: `( a & b )`, three nodes for five tokens. -/
theorem nodes_le_consumed_witness :
    nodeCount (parseLevel Level.biconditional
        [Token.symbol '(', Token.identifier "a", Token.symbol '&', Token.identifier "b",
          Token.symbol ')'] FormTree.null).t
      ≤ 5 - (parseLevel Level.biconditional
        [Token.symbol '(', Token.identifier "a", Token.symbol '&', Token.identifier "b",
          Token.symbol ')'] FormTree.null).lp.length :=
  (nodes_le_consumed Level.biconditional
    [Token.symbol '(', Token.identifier "a", Token.symbol '&', Token.identifier "b",
      Token.symbol ')'] FormTree.null
    (by simp [parseLevel, treeBiconditional_eq, treeImplication_eq, treeDisjunction_eq,
          disjLoop_eq, treeConjunction_eq, conjLoop_eq, treeLiteral_eq, treeAtom_eq,
          acceptCharacter, treeIdentifier, newFormTreeNode])).1

/-! ## Termination and the heap -/

/-- A call that returns within its budget returns the outcome of the total function. -/
theorem runFuel_res : ∀ (n : Nat) (f : Fn) (lp : List Token) (t : FormTree) (tr : Trace),
    runFuel n f lp t = some tr → tr.res = run f lp t := by
  intro n
  induction n with
  | zero =>
    intro f lp t tr h
    simp [runFuel] at h
  | succ n ih =>
    intro f lp t tr h
    cases f with
    | atom =>
      show tr.res = treeAtom lp t
      simp only [runFuel] at h
      rw [treeAtom_eq]
      split_ifs at h with h1 h2 h3 h4
      · cases h
        simp [h1, newFormTreeNode]
      · cases h
        simp [h1, h2, newFormTreeNode]
      · cases h
        simp [h1, h2, h3]
      · split at h
        · cases h
        · rename_i b hb
          have hb2 : treeBiconditional (acceptCharacter lp '(').2 t = b.res :=
            (ih _ _ _ _ hb).symm
          split_ifs at h with h5 h6 <;> cases h <;> simp [hb2, *]
      · cases h
        simp [h1, h2, h3, h4]
    | literal =>
      show tr.res = treeLiteral lp t
      simp only [runFuel] at h
      rw [treeLiteral_eq]
      split at h
      · cases h
      · rename_i a ha
        have ha2 : treeAtom lp t = a.res := (ih _ _ _ _ ha).symm
        rw [ha2]
        split_ifs at h with h1 h2
        · cases h
          simp [h1]
        · split at h
          · cases h
          · rename_i b hb
            have hb2 : treeAtom (acceptCharacter a.res.lp '~').2 FormTree.null = b.res :=
              (ih _ _ _ _ hb).symm
            split_ifs at h with h3 <;> cases h <;> simp [h1, h2, hb2, h3, newFormTreeNode]
        · cases h
          simp [h1, h2]
    | conjLoop =>
      show tr.res = conjLoop lp t
      simp only [runFuel] at h
      rw [conjLoop_eq]
      split_ifs at h with h1
      · split at h
        · cases h
        · rename_i b hb
          have hb2 : treeLiteral (acceptCharacter lp '&').2 FormTree.null = b.res :=
            (ih _ _ _ _ hb).symm
          rw [hb2]
          split_ifs at h with h2
          · split at h
            · cases h
            · rename_i c hc
              have hc2 := ih _ _ _ _ hc
              cases h
              simp [h1, h2, hc2, run, newFormTreeNode]
          · cases h
            simp [h1, h2]
      · cases h
        simp [h1]
    | conjunction =>
      show tr.res = treeConjunction lp t
      simp only [runFuel] at h
      rw [treeConjunction_eq]
      split at h
      · cases h
      · rename_i a ha
        have ha2 : treeLiteral lp t = a.res := (ih _ _ _ _ ha).symm
        rw [ha2]
        split_ifs at h with h1
        · split at h
          · cases h
          · rename_i c hc
            have hc2 := ih _ _ _ _ hc
            cases h
            simp [h1, hc2, run]
        · cases h
          simp [h1]
    | disjLoop =>
      show tr.res = disjLoop lp t
      simp only [runFuel] at h
      rw [disjLoop_eq]
      split_ifs at h with h1
      · split at h
        · cases h
        · rename_i b hb
          have hb2 : treeConjunction (acceptCharacter lp '|').2 FormTree.null = b.res :=
            (ih _ _ _ _ hb).symm
          rw [hb2]
          split_ifs at h with h2
          · split at h
            · cases h
            · rename_i c hc
              have hc2 := ih _ _ _ _ hc
              cases h
              simp [h1, h2, hc2, run, newFormTreeNode]
          · cases h
            simp [h1, h2]
      · cases h
        simp [h1]
    | disjunction =>
      show tr.res = treeDisjunction lp t
      simp only [runFuel] at h
      rw [treeDisjunction_eq]
      split at h
      · cases h
      · rename_i a ha
        have ha2 : treeConjunction lp t = a.res := (ih _ _ _ _ ha).symm
        rw [ha2]
        split_ifs at h with h1
        · split at h
          · cases h
          · rename_i c hc
            have hc2 := ih _ _ _ _ hc
            cases h
            simp [h1, hc2, run]
        · cases h
          simp [h1]
    | implication =>
      show tr.res = treeImplication lp t
      simp only [runFuel] at h
      rw [treeImplication_eq]
      split at h
      · cases h
      · rename_i a ha
        have ha2 : treeDisjunction lp t = a.res := (ih _ _ _ _ ha).symm
        rw [ha2]
        split_ifs at h with h1 h2 h3
        · split at h
          · cases h
          · rename_i b hb
            have hb2 : treeDisjunction
                (acceptCharacter (acceptCharacter a.res.lp '-').2 '>').2 FormTree.null
                = b.res := (ih _ _ _ _ hb).symm
            split_ifs at h with h4 <;> cases h <;>
              simp [h1, h2, h3, hb2, h4, newFormTreeNode]
        · cases h
          simp [h1, h2, h3]
        · cases h
          simp [h1, h2]
        · cases h
          simp [h1]
    | biconditional =>
      show tr.res = treeBiconditional lp t
      simp only [runFuel] at h
      rw [treeBiconditional_eq]
      split at h
      · cases h
      · rename_i a ha
        have ha2 : treeImplication lp t = a.res := (ih _ _ _ _ ha).symm
        rw [ha2]
        split_ifs at h with h1 h2 h3 h4
        · split at h
          · cases h
          · rename_i b hb
            have hb2 : treeImplication
                (acceptCharacter
                  (acceptCharacter (acceptCharacter a.res.lp '<').2 '-').2 '>').2
                FormTree.null = b.res := (ih _ _ _ _ hb).symm
            split_ifs at h with h5 <;> cases h <;>
              simp [h1, h2, h3, h4, hb2, h5, newFormTreeNode]
        · cases h
          simp [h1, h2, h3, h4]
        · cases h
          simp [h1, h2, h3]
        · cases h
          simp [h1, h2]
        · cases h
          simp [h1]

/-- A budget above seven times the number of unread tokens always suffices. -/
theorem runFuel_enough : ∀ (n : Nat) (f : Fn) (lp : List Token) (t : FormTree),
    7 * lp.length + f.rank < n → ∃ tr, runFuel n f lp t = some tr := by
  intro n
  induction n with
  | zero =>
    intro f lp t hm
    omega
  | succ n ih =>
    intro f lp t hm
    cases f with
    | atom =>
      simp only [runFuel]
      simp only [Fn.rank] at hm
      split_ifs with h1 h2 h3 h4
      · exact ⟨_, rfl⟩
      · exact ⟨_, rfl⟩
      · exact ⟨_, rfl⟩
      · have hlt := acceptCharacter_length_lt lp '(' h4
        obtain ⟨b, hb⟩ := ih Fn.biconditional (acceptCharacter lp '(').2 t
          (by simp only [Fn.rank]; omega)
        rw [hb]
        simp only []
        split_ifs <;> exact ⟨_, rfl⟩
      · exact ⟨_, rfl⟩
    | literal =>
      simp only [runFuel]
      simp only [Fn.rank] at hm
      obtain ⟨a, ha⟩ := ih Fn.atom lp t (by simp only [Fn.rank]; omega)
      have hlen := run_length_le Fn.atom lp t
      rw [← runFuel_res _ _ _ _ _ ha] at hlen
      rw [ha]
      simp only []
      split_ifs with h1 h2
      · exact ⟨_, rfl⟩
      · have hlt := acceptCharacter_length_lt a.res.lp '~' h2
        obtain ⟨b, hb⟩ := ih Fn.atom (acceptCharacter a.res.lp '~').2 FormTree.null
          (by simp only [Fn.rank]; omega)
        rw [hb]
        simp only []
        split_ifs <;> exact ⟨_, rfl⟩
      · exact ⟨_, rfl⟩
    | conjLoop =>
      simp only [runFuel]
      simp only [Fn.rank] at hm
      split_ifs with h1
      · have hlt := acceptCharacter_length_lt lp '&' h1
        obtain ⟨b, hb⟩ := ih Fn.literal (acceptCharacter lp '&').2 FormTree.null
          (by simp only [Fn.rank]; omega)
        have hlen := run_length_le Fn.literal (acceptCharacter lp '&').2 FormTree.null
        rw [← runFuel_res _ _ _ _ _ hb] at hlen
        rw [hb]
        simp only []
        split_ifs with h2
        · obtain ⟨c, hc⟩ := ih Fn.conjLoop b.res.lp
            (newFormTreeNode (Token.symbol '&') t b.res.t)
            (by simp only [Fn.rank]; omega)
          rw [hc]
          exact ⟨_, rfl⟩
        · exact ⟨_, rfl⟩
      · exact ⟨_, rfl⟩
    | conjunction =>
      simp only [runFuel]
      simp only [Fn.rank] at hm
      obtain ⟨a, ha⟩ := ih Fn.literal lp t (by simp only [Fn.rank]; omega)
      have hlen := run_length_le Fn.literal lp t
      rw [← runFuel_res _ _ _ _ _ ha] at hlen
      rw [ha]
      simp only []
      split_ifs with h1
      · obtain ⟨c, hc⟩ := ih Fn.conjLoop a.res.lp a.res.t (by simp only [Fn.rank]; omega)
        rw [hc]
        exact ⟨_, rfl⟩
      · exact ⟨_, rfl⟩
    | disjLoop =>
      simp only [runFuel]
      simp only [Fn.rank] at hm
      split_ifs with h1
      · have hlt := acceptCharacter_length_lt lp '|' h1
        obtain ⟨b, hb⟩ := ih Fn.conjunction (acceptCharacter lp '|').2 FormTree.null
          (by simp only [Fn.rank]; omega)
        have hlen := run_length_le Fn.conjunction (acceptCharacter lp '|').2 FormTree.null
        rw [← runFuel_res _ _ _ _ _ hb] at hlen
        rw [hb]
        simp only []
        split_ifs with h2
        · obtain ⟨c, hc⟩ := ih Fn.disjLoop b.res.lp
            (newFormTreeNode (Token.symbol '|') t b.res.t)
            (by simp only [Fn.rank]; omega)
          rw [hc]
          exact ⟨_, rfl⟩
        · exact ⟨_, rfl⟩
      · exact ⟨_, rfl⟩
    | disjunction =>
      simp only [runFuel]
      simp only [Fn.rank] at hm
      obtain ⟨a, ha⟩ := ih Fn.conjunction lp t (by simp only [Fn.rank]; omega)
      have hlen := run_length_le Fn.conjunction lp t
      rw [← runFuel_res _ _ _ _ _ ha] at hlen
      rw [ha]
      simp only []
      split_ifs with h1
      · obtain ⟨c, hc⟩ := ih Fn.disjLoop a.res.lp a.res.t (by simp only [Fn.rank]; omega)
        rw [hc]
        exact ⟨_, rfl⟩
      · exact ⟨_, rfl⟩
    | implication =>
      simp only [runFuel]
      simp only [Fn.rank] at hm
      obtain ⟨a, ha⟩ := ih Fn.disjunction lp t (by simp only [Fn.rank]; omega)
      have hlen := run_length_le Fn.disjunction lp t
      rw [← runFuel_res _ _ _ _ _ ha] at hlen
      rw [ha]
      simp only []
      split_ifs with h1 h2 h3
      · have hlt := acceptCharacter_length_lt a.res.lp '-' h2
        have hle := acceptCharacter_length_le (acceptCharacter a.res.lp '-').2 '>'
        obtain ⟨b, hb⟩ := ih Fn.disjunction
          (acceptCharacter (acceptCharacter a.res.lp '-').2 '>').2 FormTree.null
          (by simp only [Fn.rank]; omega)
        rw [hb]
        simp only []
        split_ifs <;> exact ⟨_, rfl⟩
      · exact ⟨_, rfl⟩
      · exact ⟨_, rfl⟩
      · exact ⟨_, rfl⟩
    | biconditional =>
      simp only [runFuel]
      simp only [Fn.rank] at hm
      obtain ⟨a, ha⟩ := ih Fn.implication lp t (by simp only [Fn.rank]; omega)
      have hlen := run_length_le Fn.implication lp t
      rw [← runFuel_res _ _ _ _ _ ha] at hlen
      rw [ha]
      simp only []
      split_ifs with h1 h2 h3 h4
      · have hlt := acceptCharacter_length_lt a.res.lp '<' h2
        have hle := acceptCharacter_length_le (acceptCharacter a.res.lp '<').2 '-'
        have hle2 := acceptCharacter_length_le
          (acceptCharacter (acceptCharacter a.res.lp '<').2 '-').2 '>'
        obtain ⟨b, hb⟩ := ih Fn.implication
          (acceptCharacter
            (acceptCharacter (acceptCharacter a.res.lp '<').2 '-').2 '>').2 FormTree.null
          (by simp only [Fn.rank]; omega)
        rw [hb]
        simp only []
        split_ifs <;> exact ⟨_, rfl⟩
      · exact ⟨_, rfl⟩
      · exact ⟨_, rfl⟩
      · exact ⟨_, rfl⟩
      · exact ⟨_, rfl⟩

/-- C18. Termination: every procedure of the parser (the six grammar functions and the
two loops) returns on every token sequence. Run with a budget for the depth of nested
calls, it returns as soon as the budget exceeds seven times the number of unread tokens
plus its rank, and what it returns is the outcome of the total function defined by
recursion on the number of unread tokens. The recursion is well founded because no call
moves the cursor backwards and an accepted character makes it strictly shorter: `treeAtom`
calls `treeBiconditional` only after accepting `(` and every loop iteration begins by
accepting its operator. -/
theorem grammar_functions_terminate (f : Fn) (lp : List Token) (t : FormTree) :
    (∀ n, 7 * lp.length + f.rank < n →
        ∃ a r, runFuel n f lp t = some ⟨run f lp t, a, r⟩)
      ∧ (run f lp t).lp.length ≤ lp.length
      ∧ (∀ c, (acceptCharacter lp c).1 = true →
          (acceptCharacter lp c).2.length < lp.length) := by
  refine ⟨?_, run_length_le f lp t, fun c h => acceptCharacter_length_lt lp c h⟩
  intro n hn
  obtain ⟨tr, h⟩ := runFuel_enough n f lp t hn
  have hres := runFuel_res n f lp t tr h
  refine ⟨tr.allocated, tr.released, ?_⟩
  rw [h, ← hres]

/-- Witness for C18: `treeBiconditional` on `( a & b )` with a budget of 42 calls. -/
theorem grammar_functions_terminate_witness :
    ∃ a r, runFuel 42 Fn.biconditional
        [Token.symbol '(', Token.identifier "a", Token.symbol '&', Token.identifier "b",
          Token.symbol ')'] FormTree.null
      = some ⟨run Fn.biconditional
          [Token.symbol '(', Token.identifier "a", Token.symbol '&', Token.identifier "b",
            Token.symbol ')'] FormTree.null, a, r⟩ :=
  (grammar_functions_terminate Fn.biconditional
    [Token.symbol '(', Token.identifier "a", Token.symbol '&', Token.identifier "b",
      Token.symbol ')'] FormTree.null).1 42 (by decide)

/-- The only assignment that drops a tree of a call that starts with an empty output
parameter is the one of `treeLiteral` after `'~'` (treeForm.c:93): on a token sequence
without `'~'` nothing is dropped. -/
theorem overwritten_no_negation : ∀ (n : Nat) (f : Fn) (lp : List Token) (t : FormTree),
    Token.symbol '~' ∉ lp → (f.isLoop = false → t = FormTree.null) →
    overwritten n f lp t = 0 := by
  intro n
  induction n with
  | zero => intro f lp t _ _; rfl
  | succ n ih =>
    intro f lp t hno ht
    have sub : ∀ {X : List Token}, X <:+ lp → Token.symbol '~' ∉ X :=
      fun hs hm => hno (hs.subset hm)
    cases f with
    | atom =>
      have ht0 : t = FormTree.null := ht rfl
      subst ht0
      have h1 := ih Fn.biconditional _ FormTree.null (sub (acceptCharacter_suffix lp '('))
        (fun _ => rfl)
      simp [overwritten, nodeCount, h1]
    | literal =>
      have ht0 : t = FormTree.null := ht rfl
      subst ht0
      have hA : overwritten n Fn.atom lp FormTree.null = 0 :=
        ih Fn.atom _ _ hno (fun _ => rfl)
      have hs1 : (treeAtom lp FormTree.null).lp <:+ lp := run_suffix Fn.atom lp _
      have hneg : (acceptCharacter (treeAtom lp FormTree.null).lp '~').1 = false := by
        cases h : (acceptCharacter (treeAtom lp FormTree.null).lp '~').1
        · rfl
        · exfalso
          have h2 := acceptCharacter_true h
          exact sub hs1 (by rw [h2]; exact List.mem_cons_self _ _)
      simp [overwritten, hneg, hA]
    | conjLoop =>
      have hs1 := acceptCharacter_suffix lp '&'
      have hs2 : (treeLiteral (acceptCharacter lp '&').2 FormTree.null).lp
          <:+ (acceptCharacter lp '&').2 := run_suffix Fn.literal _ _
      have h1 := ih Fn.literal _ FormTree.null (sub hs1) (fun _ => rfl)
      have h2 : ∀ t1, overwritten n Fn.conjLoop
          (treeLiteral (acceptCharacter lp '&').2 FormTree.null).lp t1 = 0 :=
        fun t1 => ih Fn.conjLoop _ t1 (sub (hs2.trans hs1)) (fun h => absurd h (by decide))
      simp [overwritten, h1, h2]
    | conjunction =>
      have ht0 : t = FormTree.null := ht rfl
      subst ht0
      have hs1 : (treeLiteral lp FormTree.null).lp <:+ lp := run_suffix Fn.literal _ _
      have h1 := ih Fn.literal _ FormTree.null hno (fun _ => rfl)
      have h2 : ∀ t1, overwritten n Fn.conjLoop (treeLiteral lp FormTree.null).lp t1 = 0 :=
        fun t1 => ih Fn.conjLoop _ t1 (sub hs1) (fun h => absurd h (by decide))
      simp [overwritten, h1, h2]
    | disjLoop =>
      have hs1 := acceptCharacter_suffix lp '|'
      have hs2 : (treeConjunction (acceptCharacter lp '|').2 FormTree.null).lp
          <:+ (acceptCharacter lp '|').2 := run_suffix Fn.conjunction _ _
      have h1 := ih Fn.conjunction _ FormTree.null (sub hs1) (fun _ => rfl)
      have h2 : ∀ t1, overwritten n Fn.disjLoop
          (treeConjunction (acceptCharacter lp '|').2 FormTree.null).lp t1 = 0 :=
        fun t1 => ih Fn.disjLoop _ t1 (sub (hs2.trans hs1)) (fun h => absurd h (by decide))
      simp [overwritten, h1, h2]
    | disjunction =>
      have ht0 : t = FormTree.null := ht rfl
      subst ht0
      have hs1 : (treeConjunction lp FormTree.null).lp <:+ lp :=
        run_suffix Fn.conjunction _ _
      have h1 := ih Fn.conjunction _ FormTree.null hno (fun _ => rfl)
      have h2 : ∀ t1, overwritten n Fn.disjLoop (treeConjunction lp FormTree.null).lp t1
          = 0 :=
        fun t1 => ih Fn.disjLoop _ t1 (sub hs1) (fun h => absurd h (by decide))
      simp [overwritten, h1, h2]
    | implication =>
      have ht0 : t = FormTree.null := ht rfl
      subst ht0
      have hs1 : (treeDisjunction lp FormTree.null).lp <:+ lp :=
        run_suffix Fn.disjunction _ _
      have h1 := ih Fn.disjunction _ FormTree.null hno (fun _ => rfl)
      have h2 := ih Fn.disjunction _ FormTree.null
        (sub (((acceptCharacter_suffix _ '>').trans (acceptCharacter_suffix _ '-')).trans
          hs1)) (fun _ => rfl)
      simp [overwritten, h1, h2]
    | biconditional =>
      have ht0 : t = FormTree.null := ht rfl
      subst ht0
      have hs1 : (treeImplication lp FormTree.null).lp <:+ lp :=
        run_suffix Fn.implication _ _
      have h1 := ih Fn.implication _ FormTree.null hno (fun _ => rfl)
      have h2 := ih Fn.implication _ FormTree.null
        (sub ((((acceptCharacter_suffix _ '>').trans (acceptCharacter_suffix _ '-')).trans
          (acceptCharacter_suffix _ '<')).trans hs1)) (fun _ => rfl)
      simp [overwritten, h1, h2]

end TreeForm
